import Mathlib

/-!
Verification development for the openack mailbox store.

The Python sources (app.py, fetch.py) are shallowly embedded below.
Strings are Lean String values; the filesystem is an explicit state
(a finite map from path strings to file nodes, plus a directory list and
an append-only transaction log).  Python string primitives (strip,
splitlines, join, replace, startswith) are re-implemented over character
lists so that their behaviour can be reasoned about; each is a faithful
model of the CPython behaviour on the character repertoire used by the
mailbox formats (line boundaries are bare newline characters, which is
the only separator the enqueue path ever writes).
-/

set_option maxRecDepth 20000

namespace Openack

/-- Python str.strip()/str.isspace() whitespace class, exactly: tab
through carriage return (9-13), the separators 28-31, space, NEL (133),
no-break space (160), Ogham space mark (5760), the typographic spaces
8192-8202, the line and paragraph separators 8232 and 8233, the narrow
no-break space (8239), the medium mathematical space (8287) and the
ideographic space (12288). -/
def pyIsSpaceChar (c : Char) : Bool :=
  (9 ≤ c.toNat && c.toNat ≤ 13) || (28 ≤ c.toNat && c.toNat ≤ 31) || c.toNat = 32 ||
  c.toNat = 133 || c.toNat = 160 || c.toNat = 5760 ||
  (8192 ≤ c.toNat && c.toNat ≤ 8202) || c.toNat = 8232 || c.toNat = 8233 ||
  c.toNat = 8239 || c.toNat = 8287 || c.toNat = 12288

/-- Python str.strip() on a character list: drop leading and trailing
whitespace. -/
def pyStripData (cs : List Char) : List Char :=
  ((cs.dropWhile pyIsSpaceChar).reverse.dropWhile pyIsSpaceChar).reverse

/-- Python str.strip(). -/
def pyStrip (s : String) : String := String.mk (pyStripData s.data)

/-- Split a character list at newline characters; always returns at least
one (possibly empty) segment, like str.split("\n"). -/
def breakLines : List Char → List (List Char)
  | [] => [[]]
  | c :: rest =>
    if c = '\n' then [] :: breakLines rest
    else
      match breakLines rest with
      | [] => [[c]]
      | l :: ls => (c :: l) :: ls

/-- Split at newline characters only: like splitting on newline, except
that the empty string yields no lines and a trailing newline does not
produce a final empty line.  On text whose line-boundary characters are
all plain newlines this agrees with the stored-file line computation
readLines below (theorem readLines_eq_nlLines); the decoder is stated
with this splitter. -/
def nlLines (s : String) : List String :=
  if s.data = [] then []
  else
    (if (breakLines s.data).getLast? = some [] then (breakLines s.data).dropLast
     else breakLines s.data).map String.mk

/-- The universal-newline translation performed by read_text: a CR-LF
pair or a lone CR becomes a newline. -/
def uninlData : List Char → List Char
  | [] => []
  | [c] => if c = '\r' then ['\n'] else [c]
  | c :: d :: rest =>
    if c = '\r' then
      if d = '\n' then '\n' :: uninlData rest
      else '\n' :: uninlData (d :: rest)
    else c :: uninlData (d :: rest)

/-- The line-boundary characters str.splitlines recognizes, except the
carriage return (which read_text has already translated away): newline,
vertical tab, form feed, the separators 28-30, NEL (133), and the line
and paragraph separators 8232 and 8233. -/
def lineBoundaryChar (c : Char) : Bool :=
  c.toNat = 10 || c.toNat = 11 || c.toNat = 12 || c.toNat = 28 || c.toNat = 29 ||
  c.toNat = 30 || c.toNat = 133 || c.toNat = 8232 || c.toNat = 8233

/-- Split a character list at the characters a predicate selects; always
returns at least one (possibly empty) segment. -/
def breakLinesAt (p : Char → Bool) : List Char → List (List Char)
  | [] => [[]]
  | c :: rest =>
    if p c then [] :: breakLinesAt p rest
    else
      match breakLinesAt p rest with
      | [] => [[c]]
      | l :: ls => (c :: l) :: ls

/-- message_file.read_text(encoding="utf-8").splitlines(): the
universal-newline translation of the stored text, split at the full
str.splitlines boundary set, without a final empty line for a trailing
boundary. -/
def readLines (content : String) : List String :=
  if content.data = [] then []
  else
    (if (breakLinesAt lineBoundaryChar (uninlData content.data)).getLast? = some [] then
      (breakLinesAt lineBoundaryChar (uninlData content.data)).dropLast
     else breakLinesAt lineBoundaryChar (uninlData content.data)).map String.mk

/-- Text whose characters include no carriage return and no line
boundary other than the plain newline: on such text the stored-file line
computation readLines agrees with the newline-only splitter nlLines. -/
def NlOnly (s : String) : Prop :=
  ∀ c ∈ s.data, c ≠ '\r' ∧ (lineBoundaryChar c = true → c = '\n')

instance (s : String) : Decidable (NlOnly s) := by
  unfold NlOnly
  infer_instance

/-- The character-list form of "\n".join. -/
def joinNlData : List (List Char) → List Char
  | [] => []
  | [l] => l
  | l :: ls => l ++ '\n' :: joinNlData ls

/-- Python "\n".join(parts). -/
def pyJoinNl (parts : List String) : String :=
  String.mk (joinNlData (parts.map String.data))

/-- Python list.index: first index of an element (none when absent). -/
def pyIndex : List String → String → Option Nat
  | [], _ => none
  | y :: ys, x => if y = x then some 0 else (pyIndex ys x).map (· + 1)

/-- Python dict lookup for a dict built by successive insertions recorded
in an association list: the most recent binding of a key wins. -/
def dictGet (d : List (String × String)) (k : String) : Option String :=
  (d.reverse.find? (fun e => e.1 = k)).map Prod.snd

/-- Python str.startswith. -/
def pyStartsWith (s pre : String) : Bool := pre.data.isPrefixOf s.data

/-- Python str.endswith. -/
def pyEndsWith (s suf : String) : Bool := suf.data.isSuffixOf s.data

/-- Python str.replace on character lists (all occurrences, left to
right, non-overlapping); an empty pattern leaves the input unchanged
(the embedding is only used with the pattern "+00:00"). -/
def pyReplaceData (pat rep cs : List Char) : List Char :=
  match pat, cs with
  | [], _ => cs
  | _ :: _, [] => []
  | p :: ps, c :: rest =>
    if (p :: ps).isPrefixOf (c :: rest) then
      rep ++ pyReplaceData (p :: ps) rep (rest.drop ps.length)
    else
      c :: pyReplaceData (p :: ps) rep rest
  termination_by cs.length
  decreasing_by
    all_goals simp [List.length_drop]
    all_goals omega

/-- Python str.replace. -/
def pyReplace (s pat rep : String) : String :=
  String.mk (pyReplaceData pat.data rep.data s.data)

/-! ### Lexicographic string order (Python string comparison) -/

/-- Strict lexicographic order on character lists by code point, the
order Python uses to compare strings. -/
def lexLt : List Char → List Char → Bool
  | [], [] => false
  | [], _ :: _ => true
  | _ :: _, [] => false
  | a :: as, b :: bs => decide (a.toNat < b.toNat) || (decide (a = b) && lexLt as bs)

/-- Non-strict lexicographic order on character lists by code point. -/
def lexLe : List Char → List Char → Bool
  | [], _ => true
  | _ :: _, [] => false
  | a :: as, b :: bs => decide (a.toNat < b.toNat) || (decide (a = b) && lexLe as bs)

/-- Python string comparison (used by sorted() on paths). -/
def strLe (a b : String) : Bool := lexLe a.data b.data

/-- The sort order used for directory scans, as a relation. -/
def pathOrder (a b : String) : Prop := strLe a b = true

instance : DecidableRel pathOrder := fun a b => inferInstanceAs (Decidable (strLe a b = true))

/-! ### Path helpers (PurePosixPath behaviour on the paths the store uses) -/

/-- Path.name: the final path component. -/
def baseName (p : String) : String :=
  String.mk (p.data.reverse.takeWhile (fun c => !(c = '/'))).reverse

/-- Path.parent rendered as a string (for paths that have at least one
slash-separated parent component, which every store path does). -/
def dirName (p : String) : String :=
  String.mk ((p.data.reverse.dropWhile (fun c => !(c = '/'))).drop 1).reverse

/-- PurePath.suffix of a bare file name: the last dot-extension, empty
when the name has no dot, starts with its only dot, or ends with a dot. -/
def nameSuffix (name : String) : String :=
  let n := name.data
  let tailLen := (n.reverse.takeWhile (fun c => !(c = '.'))).length
  if tailLen = n.length then ""
  else if tailLen = 0 then ""
  else if n.length - 1 - tailLen = 0 then ""
  else String.mk (n.drop (n.length - 1 - tailLen))

/-- PurePath.suffix of a path. -/
def pathSuffix (p : String) : String := nameSuffix (baseName p)

/-- PurePath.stem of a path: the file name without its last suffix. -/
def pathStem (p : String) : String :=
  let nm := baseName p
  let suf := nameSuffix nm
  String.mk (nm.data.take (nm.data.length - suf.data.length))

/-- Name of a direct child of a directory: some n when p = dir ++ "/" ++ n
with n free of slashes, none otherwise. -/
def childNameData (d p : List Char) : Option (List Char) :=
  if (d ++ ['/']).isPrefixOf p then
    let rest := p.drop (d.length + 1)
    if rest.contains '/' then none else some rest
  else none

/-- String form of childNameData. -/
def childName (dir p : String) : Option String :=
  (childNameData dir.data p.data).map String.mk

/-! ### Base64 (base64.b64encode over the UTF-8 bytes of a file) -/

def b64CharTable : String :=
  "ABCDEFGHIJKLMNOPQRSTUVWXYZabcdefghijklmnopqrstuvwxyz0123456789+/"

def b64Char (n : Nat) : Char := b64CharTable.data.getD n '='

def b64encodeList : List UInt8 → List Char
  | [] => []
  | [a] =>
    let x := a.toNat
    [b64Char (x / 4), b64Char ((x % 4) * 16), '=', '=']
  | [a, b] =>
    let x := a.toNat * 256 + b.toNat
    [b64Char (x / 1024), b64Char ((x / 16) % 64), b64Char ((x % 16) * 4), '=']
  | a :: b :: c :: rest =>
    let x := a.toNat * 65536 + b.toNat * 256 + c.toNat
    b64Char (x / 262144) :: b64Char ((x / 4096) % 64) :: b64Char ((x / 64) % 64)
      :: b64Char (x % 64) :: b64encodeList rest

/-- base64.b64encode(path.read_bytes()).decode("utf-8") for a file whose
bytes are the UTF-8 encoding of the stored string. -/
def b64encode (s : String) : String := String.mk (b64encodeList s.toUTF8.toList)

/-! ### Filesystem state -/

/-- A file node: either a regular file holding text/bytes (stored as the
string whose UTF-8 encoding is the file content) or a zip archive holding
(archive member name, member content) pairs. -/
inductive FsFile where
  | file (content : String)
  | zip (members : List (String × String))
deriving DecidableEq, Repr

/-- Bytes of a file node when read back (archived zips are never re-read
by the store, so their byte rendering is irrelevant and left empty). -/

def FsFile.bytes : FsFile → String
  | .file c => c
  | .zip _ => ""

/-- Filesystem state: path-indexed files, existing directories, and the
append-only transaction log. -/
structure FS where
  files : List (String × FsFile)
  dirs : List String
  log : List String
deriving DecidableEq, Repr

def FS.lookup (s : FS) (p : String) : Option FsFile :=
  (s.files.find? (fun e => e.1 = p)).map Prod.snd

def FS.writeFile (s : FS) (p : String) (f : FsFile) : FS :=
  { s with files := s.files.filter (fun e => !(e.1 = p)) ++ [(p, f)] }

def FS.deleteFile (s : FS) (p : String) : FS :=
  { s with files := s.files.filter (fun e => !(e.1 = p)) }

def FS.mkdir (s : FS) (d : String) : FS := { s with dirs := s.dirs ++ [d] }

def FS.dirExists (s : FS) (d : String) : Bool := s.dirs.contains d

def FS.appendLog (s : FS) (line : String) : FS := { s with log := s.log ++ [line] }

/-- inbox_dir.glob("*.md"): the direct children of dir whose name ends in
".md" (pathlib glob does not recurse and does not skip dot files). -/
def FS.mdFiles (s : FS) (dir : String) : List String :=
  (s.files.map Prod.fst).filter (fun p =>
    match childName dir p with
    | some n => pyEndsWith n ".md"
    | none => false)

/-- sorted(inbox_dir.glob("*.md")): the md children in Python string
order (all candidates share the directory prefix, so path order is name
order). -/
def FS.sortedMdFiles (s : FS) (dir : String) : List String :=
  List.insertionSort pathOrder (s.mdFiles dir)

/-! ### Agent-name canonicalization (sanitize_agent_name, identical in
app.py and fetch.py) -/

/-- Python str.lower() per character, restricted to the Latin-1 range
(ASCII letters and the Latin-1 letters U+00C0 to U+00DE except the
multiplication sign map 32 code points up; everything else in the range
is unchanged). -/
def pyLowerChar (c : Char) : Char :=
  if 65 ≤ c.toNat ∧ c.toNat ≤ 90 then Char.ofNat (c.toNat + 32)
  else if 192 ≤ c.toNat ∧ c.toNat ≤ 222 ∧ c.toNat ≠ 215 then Char.ofNat (c.toNat + 32)
  else c

/-- Python str.lower(). -/
def pyLower (s : String) : String := String.mk (s.data.map pyLowerChar)

/-- Python str.isalnum() per character, restricted to the Latin-1 range
(code points up to U+00FF), where it is exact: ASCII digits and letters,
the ordinal indicators, superscripts, micro sign, vulgar fractions and
the Latin-1 letters. -/
def pyIsAlnumChar (c : Char) : Bool :=
  let n := c.toNat
  (48 ≤ n && n ≤ 57) || (65 ≤ n && n ≤ 90) || (97 ≤ n && n ≤ 122) ||
  n = 170 || n = 178 || n = 179 || n = 181 || n = 185 || n = 186 ||
  (188 ≤ n && n ≤ 190) || (192 ≤ n && n ≤ 214) || (216 ≤ n && n ≤ 246) ||
  (248 ≤ n && n ≤ 255)

/-- sanitize_agent_name: lowercase the trimmed input (safe =
agent.strip().lower(), written out in full below); reject when empty or
when any character is neither alphanumeric nor a dash/underscore. -/
def sanitize_agent_name (agent : String) : Except String String :=
  if pyLower (pyStrip agent) = "" then .error ("Invalid agent name: " ++ agent)
  else if (pyLower (pyStrip agent)).data.any
      (fun ch => !(pyIsAlnumChar ch || ch = '-' || ch = '_')) then
    .error ("Invalid agent name: " ++ agent)
  else .ok (pyLower (pyStrip agent))

/-! ### Envelope decoding (fetch.py _parse_message_file) -/

def headerMark : String := "=== HEADER ==="

def footerMark : String := "=== FOOTER ==="

/-- The key of a key-value header line: the part before the first
colon, stripped (line.split(":", 1)[0].strip()). -/
def headerKeyOf (line : String) : String :=
  pyStrip (String.mk (line.data.takeWhile (fun c => !(c = ':'))))

/-- The value of a key-value header line: the part after the first
colon, stripped (line.split(":", 1)[1].strip()). -/
def headerValueOf (line : String) : String :=
  pyStrip (String.mk ((line.data.dropWhile (fun c => !(c = ':'))).drop 1))

/-- One iteration of the header loop on a non-blank line: lines with a
colon contribute a (stripped key, stripped value) entry via
line.split(":", 1). -/
def headerEntry (raw : String) : Option (String × String) :=
  if (pyStrip raw).data.contains ':' then
    some (headerKeyOf (pyStrip raw), headerValueOf (pyStrip raw))
  else none

/-- The raw attachment path of a footer line: the stripped line with the
leading dash-space removed and stripped again. -/
def attachmentRawOf (line : String) : String :=
  pyStrip (String.mk ((pyStrip line).data.drop 2))

/-- One iteration of the footer loop: a stripped line starting with
"- " yields an attachment path, resolved against the envelope file's
directory when not absolute. -/
def attachmentOfLine (parentDir : String) (line : String) : Option String :=
  if pyStartsWith (pyStrip line) "- " then
    some (if pyStartsWith (attachmentRawOf line) "/" then attachmentRawOf line
          else parentDir ++ "/" ++ attachmentRawOf line)
  else none

/-- header_start: one past the first header-marker line. -/
def headerStartOf (lines : List String) : Nat := (pyIndex lines headerMark).getD 0 + 1

/-- footer_start: len(lines) - 1 - reversed(lines).index(footer marker),
the index of the LAST footer-marker line. -/
def footerStartOf (lines : List String) : Nat :=
  lines.length - 1 - (pyIndex lines.reverse footerMark).getD 0

/-- The slice lines[header_start:footer_start] the header loop ranges over. -/
def headerSliceOf (lines : List String) : List String :=
  (lines.drop (headerStartOf lines)).take (footerStartOf lines - headerStartOf lines)

/-- Position (within the header slice) of the first blank line that
terminates the header loop, if any. -/
def blankIdxOf (lines : List String) : Option Nat :=
  (headerSliceOf lines).findIdx? (fun l => pyStrip l = "")

/-- body_start: just after the header-terminating blank line, or
header_start when the loop never hits a blank line. -/
def bodyStartOf (lines : List String) : Nat :=
  match blankIdxOf lines with
  | some i => headerStartOf lines + i + 1
  | none => headerStartOf lines

/-- The header dict: the key-value lines visited before the blank line. -/
def headerDictOf (lines : List String) : List (String × String) :=
  (match blankIdxOf lines with
   | some i => (headerSliceOf lines).take i
   | none => headerSliceOf lines).filterMap headerEntry

/-- message_text: lines[body_start:footer_start] joined and stripped. -/
def messageTextOf (lines : List String) : String :=
  pyStrip (pyJoinNl ((lines.drop (bodyStartOf lines)).take
    (footerStartOf lines - bodyStartOf lines)))

/-- The attachment paths parsed from lines[footer_start+1:]. -/
def attachmentsOf (parentDir : String) (lines : List String) : List String :=
  (lines.drop (footerStartOf lines + 1)).filterMap (attachmentOfLine parentDir)

/-- _parse_message_file: decode an envelope file (given the file's
directory, for relative attachment paths, and its text).  Returns the
header entries in insertion order, the body text and the attachment
paths; none models the raised MalformedEnvelope error.  The local
variables of the Python function are the defs above, applied to
lines = content.splitlines(). -/
def _parse_message_file (parentDir : String) (content : String) :
    Option (List (String × String) × String × List String) :=
  if (nlLines content).contains headerMark &&
      (nlLines content).contains footerMark then
    some (headerDictOf (nlLines content), messageTextOf (nlLines content),
      attachmentsOf parentDir (nlLines content))
  else none

/-- The decoder exactly as the program runs it on a stored envelope
file: read_text (universal newlines) followed by splitlines, then the
header/body/attachment extraction.  Agrees with _parse_message_file on
stored content whose line boundaries are all plain newlines (theorem
parse_stored_eq). -/
def _parse_stored (parentDir : String) (content : String) :
    Option (List (String × String) × String × List String) :=
  if (readLines content).contains headerMark &&
      (readLines content).contains footerMark then
    some (headerDictOf (readLines content), messageTextOf (readLines content),
      attachmentsOf parentDir (readLines content))
  else none

/-! ### Archival (fetch.py _archive_processed_message) -/

/-- The done directory for an envelope file: message_file.parent.parent/done. -/
def doneDirOf (message_file : String) : String :=
  dirName (dirName message_file) ++ "/done"

/-- The zip path for an envelope file: done/<stem>.zip. -/
def zipPathOf (message_file : String) : String :=
  doneDirOf message_file ++ "/" ++ pathStem message_file ++ ".zip"

/-- The zip members collected while archiving: the envelope file when it
exists, then every attachment that exists, each under its base name. -/
def archiveMembers (s : FS) (message_file : String) (attachments : List String) :
    List (String × String) :=
  (match s.lookup message_file with
   | some f => [(baseName message_file, f.bytes)]
   | none => [])
  ++ attachments.filterMap (fun a => (s.lookup a).map (fun f => (baseName a, f.bytes)))

/-- _archive_processed_message: create done/, write a zip containing the
envelope file and every attachment that still exists (member names are
the base file names), then unlink the envelope file and the existing
attachments.  Directory creation does not affect file contents, so the
members are computed from the incoming state. -/
def _archive_processed_message (s : FS) (message_file : String)
    (attachments : List String) : FS :=
  let s1 := s.mkdir (doneDirOf message_file)
  let s2 := s1.writeFile (zipPathOf message_file)
    (.zip (archiveMembers s1 message_file attachments))
  let s3 := if (s2.lookup message_file).isSome then s2.deleteFile message_file else s2
  attachments.foldl (fun st a => if (st.lookup a).isSome then st.deleteFile a else st) s3

/-! ### Dequeue (fetch.py fetch_messages_by_id) -/

/-- One element of the response payload. -/
structure Message where
  fromAgent : String
  toAgent : String
  sent_at : String
  message : String
  attachments : List (String × String)
deriving DecidableEq, Repr

/-- The attachments block of a response message: every referenced path
that exists contributes (base name, base64 content); missing paths are
skipped. -/
def msgAttachments (s : FS) (attachment_paths : List String) : List (String × String) :=
  attachment_paths.filterMap (fun a =>
    match s.lookup a with
    | some f => some (baseName a, b64encode f.bytes)
    | none => none)

/-- The response record built for one envelope file: header fields with
their defaults (empty sender/timestamp, token agent as recipient), body
text, and the existing attachments. -/
def messageOf (s : FS) (mapped p : String) : Option Message :=
  match s.lookup p with
  | some (.file c) =>
    match _parse_message_file (dirName p) c with
    | some (header, message_text, attachment_paths) =>
      some { fromAgent := (dictGet header "from").getD ""
             toAgent := (dictGet header "to").getD mapped
             sent_at := (dictGet header "sent_at").getD ""
             message := message_text
             attachments := msgAttachments s attachment_paths }
    | none => none
  | _ => none

/-- The per-file loop body of fetch_messages_by_id, processing the
remaining envelope files in order: decode, collect existing attachments
base64-encoded, append the message, archive, continue.  An undecodable
file raises, which discards the messages produced so far but keeps the
filesystem effects of the envelopes already archived. -/
def fetchLoop (mapped : String) : List String → FS → Except String (List Message) × FS
  | [], s => (.ok [], s)
  | p :: rest, s =>
    match s.lookup p with
    | some (.file c) =>
      match _parse_message_file (dirName p) c with
      | some (header, message_text, attachment_paths) =>
        let msg : Message :=
          { fromAgent := (dictGet header "from").getD ""
            toAgent := (dictGet header "to").getD mapped
            sent_at := (dictGet header "sent_at").getD ""
            message := message_text
            attachments := msgAttachments s attachment_paths }
        let s1 := _archive_processed_message s p attachment_paths
        match fetchLoop mapped rest s1 with
        | (.ok msgs, s2) => (.ok (msg :: msgs), s2)
        | (.error e, s2) => (.error e, s2)
      | none => (.error ("Malformed message file: " ++ p), s)
    | some (.zip _) => (.error ("Unreadable message file: " ++ p), s)
    | none => (.error ("Missing message file: " ++ p), s)

/-- fetch_messages_by_id: resolve the agent id through the loaded id map
(an empty or missing mapping value is the falsy case and is rejected),
return an empty list when the inbox directory does not exist, otherwise
scan the sorted md files.  The final filesystem state is returned
alongside the payload (on error it reflects the archives already
performed). -/
def fetch_messages_by_id (idMap : List (String × String)) (root : String)
    (agent_id : String) (s : FS) : Except String (List Message) × FS :=
  match dictGet idMap (pyStrip agent_id) with
  | none => (.error "Unknown agent id", s)
  | some mapped =>
    if mapped = "" then (.error "Unknown agent id", s)
    else
      let inbox_dir := root ++ "/" ++ mapped ++ "/inbox"
      if s.dirExists inbox_dir then fetchLoop mapped (s.sortedMdFiles inbox_dir) s
      else (.ok [], s)

/-! ### Enqueue (app.py) -/

/-- make_message_filename: the sent_at timestamp with "+00:00" rewritten
to "Z", then the unique id, as an md file. -/
def make_message_filename (message_uuid sent_at : String) : String :=
  pyReplace sent_at "+00:00" "Z" ++ "-" ++ message_uuid ++ ".md"

/-- Storage file name of the index-th attachment (1-based), keeping only
the extension of the original name ("attachment.bin" when the original
name is empty). -/
def attachmentFileName (message_uuid : String) (index : Nat) (original_name : String) : String :=
  message_uuid ++ "-attachment" ++ toString index
    ++ pathSuffix (if original_name = "" then "attachment.bin" else original_name)

/-- The text written into an envelope file: header lines, blank line,
stripped body, blank line, footer marker, then either the attachments
block or the reply_url line, with a trailing newline. -/
def envelopeContent (sender recipient message sent_at : String)
    (attachment_paths : List String) : String :=
  let header := [headerMark,
    "from: " ++ sender,
    "to: " ++ recipient,
    "sent_at: " ++ sent_at,
    ""]
  let footer := ["", footerMark] ++
    (if attachment_paths.isEmpty then
      ["reply_url: /messages?from=" ++ recipient ++ "&to=" ++ sender]
     else "attachments:" :: attachment_paths.map (fun p => "- " ++ p))
  pyJoinNl (header ++ [pyStrip message] ++ footer) ++ "\n"

/-- write_transaction_log: append one audit line. -/
def write_transaction_log (s : FS) (sender recipient sent_at : String) : FS :=
  s.appendLog ("from=" ++ sender ++ ",to=" ++ recipient ++ ",datetime=" ++ sent_at)

/-- write_message: create the inbox, write each attachment under its
storage name, write the envelope file, and append the audit line.  The
fresh uuid4().hex value is passed in as message_uuid.  Returns the
envelope path and attachment paths. -/
def write_message (root message_uuid sender recipient message : String)
    (files : List (String × String)) (sent_at : String) (s : FS) :
    (String × List String) × FS :=
  let inbox_dir := root ++ "/" ++ recipient ++ "/inbox"
  let s1 := s.mkdir inbox_dir
  let attachment_paths := files.enum.map (fun ia =>
    inbox_dir ++ "/" ++ attachmentFileName message_uuid (ia.1 + 1) ia.2.1)
  let s2 := files.enum.foldl (fun st ia =>
    st.writeFile (inbox_dir ++ "/" ++ attachmentFileName message_uuid (ia.1 + 1) ia.2.1)
      (.file ia.2.2)) s1
  let message_file := inbox_dir ++ "/" ++ make_message_filename message_uuid sent_at
  let s3 := s2.writeFile message_file (.file (envelopeContent sender recipient message sent_at attachment_paths))
  let s4 := write_transaction_log s3 sender recipient sent_at
  ((message_file, attachment_paths), s4)

/-- The recipient list comprehension: sanitize each recipient, raising
at the first invalid one. -/
def sanitizeAll : List String → Except String (List String)
  | [] => .ok []
  | r :: rs =>
    match sanitize_agent_name r with
    | .error e => .error e
    | .ok c =>
      match sanitizeAll rs with
      | .error e => .error e
      | .ok cs => .ok (c :: cs)

/-- handle_send_message: validate (sanitize sender, sanitize every
recipient, sender known, recipients non-empty, all recipients known,
body non-blank), then write one envelope per recipient.  The loaded
people directory and the uuid supply are passed in; sent_at is the
single timestamp computed for the call.  Returns the deliveries. -/
def handle_send_message (people : List String) (root : String)
    (uuidGen : Nat → String) (sender : String) (recipients : List String)
    (message : String) (files : List (String × String)) (sent_at : String)
    (s : FS) : Except String (List (String × List String)) × FS :=
  match sanitize_agent_name sender with
  | .error e => (.error e, s)
  | .ok clean_sender =>
    match sanitizeAll recipients with
    | .error e => (.error e, s)
    | .ok clean_recipients =>
      if !(people.contains clean_sender) then
        (.error ("Sender is not in directory: " ++ clean_sender), s)
      else if clean_recipients.isEmpty then
        (.error "At least one recipient is required", s)
      else
        let invalid := clean_recipients.filter (fun p => !(people.contains p))
        if !invalid.isEmpty then
          (.error ("Recipient(s) not in directory: " ++ String.intercalate ", " invalid), s)
        else if pyStrip message = "" then
          (.error "Message body must not be empty", s)
        else
          let out := clean_recipients.enum.foldl (fun acc ir =>
            let step := write_message root (uuidGen ir.1) clean_sender ir.2 message files sent_at acc.2
            (acc.1 ++ [step.1], step.2)) (([] : List (String × List String)), s)
          (.ok out.1, out.2)

/-! ### Timestamps (datetime.now(timezone.utc).replace(microsecond=0).isoformat()) -/

/-- A UTC timestamp truncated to whole seconds. -/
structure Timestamp where
  year : Nat
  month : Nat
  day : Nat
  hour : Nat
  minute : Nat
  second : Nat
deriving DecidableEq, Repr

/-- Loose field bounds; every real timestamp satisfies them. -/
def Timestamp.Bounded (t : Timestamp) : Prop :=
  t.year < 10000 ∧ t.month < 100 ∧ t.day < 100 ∧ t.hour < 100 ∧ t.minute < 100 ∧ t.second < 100

/-- Chronological order on timestamps (lexicographic by field). -/
def Timestamp.Earlier (a b : Timestamp) : Prop :=
  a.year < b.year ∨ (a.year = b.year ∧
    (a.month < b.month ∨ (a.month = b.month ∧
      (a.day < b.day ∨ (a.day = b.day ∧
        (a.hour < b.hour ∨ (a.hour = b.hour ∧
          (a.minute < b.minute ∨ (a.minute = b.minute ∧
            a.second < b.second)))))))))

/-- A decimal digit character. -/
def digitChar (n : Nat) : Char :=
  match n with
  | 0 => '0' | 1 => '1' | 2 => '2' | 3 => '3' | 4 => '4'
  | 5 => '5' | 6 => '6' | 7 => '7' | 8 => '8' | _ => '9'

/-- Two-digit zero-padded decimal rendering. -/
def pad2 (n : Nat) : List Char := [digitChar (n / 10), digitChar (n % 10)]

/-- Four-digit zero-padded decimal rendering. -/
def pad4 (n : Nat) : List Char := pad2 (n / 100) ++ pad2 (n % 100)

/-- The characters of the isoformat date-time part, YYYY-MM-DDTHH:MM:SS. -/
def isoBaseData (t : Timestamp) : List Char :=
  pad4 t.year ++ '-' :: (pad2 t.month ++ '-' :: (pad2 t.day ++ 'T' ::
    (pad2 t.hour ++ ':' :: (pad2 t.minute ++ ':' :: pad2 t.second))))

/-- datetime.isoformat() of a second-truncated aware UTC datetime:
YYYY-MM-DDTHH:MM:SS+00:00. -/
def isoformatUTC (t : Timestamp) : String :=
  String.mk (isoBaseData t) ++ "+00:00"

/-- The character class claimed for canonical agent identities:
a-z (code points 97-122), 0-9 (48-57), dash (45), underscore (95). -/
def asciiCanonChar (c : Char) : Prop :=
  (97 ≤ c.toNat ∧ c.toNat ≤ 122) ∨ (48 ≤ c.toNat ∧ c.toNat ≤ 57) ∨
    c.toNat = 45 ∨ c.toNat = 95

instance (c : Char) : Decidable (asciiCanonChar c) := by
  unfold asciiCanonChar; infer_instance

/-! ## Supporting lemmas -/

/-- The header dict the decoder extracts from the lines strictly between
the header marker and the last footer marker. -/
def headerOfLines (mid : List String) : List (String × String) :=
  (match mid.findIdx? (fun l => pyStrip l = "") with
    | some i => mid.take i
    | none => mid).filterMap headerEntry

/-- The body text the decoder extracts from the lines strictly between
the header marker and the last footer marker. -/
def bodyOfLines (mid : List String) : String :=
  pyStrip (pyJoinNl (match mid.findIdx? (fun l => pyStrip l = "") with
    | some i => mid.drop (i + 1)
    | none => mid))

/-- A canonical agent name: non-empty over a-z0-9 dash underscore. -/
def CanonicalAgent (s : String) : Prop :=
  s ≠ "" ∧ ∀ c ∈ s.data, asciiCanonChar c

/-- Well-formedness of an attachment storage path as written by the
enqueue path with an absolute messages root: newline-free, already
trimmed, absolute. -/
def PathOk (p : String) : Prop :=
  '\n' ∉ p.data ∧ pyStrip p = p ∧ pyStartsWith p "/" = true

/-- A non-empty, trimmed, newline-free string: the shape of every header
value the encoder emits. -/
def HeaderValueOk (v : String) : Prop :=
  v ≠ "" ∧ pyStrip v = v ∧ '\n' ∉ v.data

/-- The three footer shapes a generated envelope can have. -/
def footerTailOf (sender recipient : String) (attachment_paths : List String) :
    List String :=
  if attachment_paths.isEmpty then
    ["reply_url: /messages?from=" ++ recipient ++ "&to=" ++ sender]
  else "attachments:" :: attachment_paths.map (fun p => "- " ++ p)

/-- The validation-failure conditions named by the enqueue contract:
invalid sender name, invalid recipient name, unknown sender, unknown
recipient, or blank body. -/
def EnqueueValidationFails (people : List String) (sender : String)
    (recipients : List String) (message : String) : Prop :=
  (∃ e, sanitize_agent_name sender = .error e) ∨
  (∃ r ∈ recipients, ∃ e, sanitize_agent_name r = .error e) ∨
  (∃ cs, sanitize_agent_name sender = .ok cs ∧ people.contains cs = false) ∨
  (∃ r ∈ recipients, ∃ cr, sanitize_agent_name r = .ok cr ∧ people.contains cr = false) ∨
  pyStrip message = ""

/-- Number of store entries under a path (the store is an association
list; writeFile removes old entries first, so a written path has exactly
one). -/
def keyCount (s : FS) (p : String) : Nat :=
  (s.files.filter (fun e => e.1 = p)).length

/-- The attachment paths an envelope file on disk references (empty when
the file is missing or malformed). -/
def attsOf (s : FS) (p : String) : List String :=
  match s.lookup p with
  | some (.file c) =>
    match _parse_message_file (dirName p) c with
    | some (_, _, atts) => atts
    | none => []
  | _ => []

/-- Whether a path holds a decodable envelope file. -/
def parsesFile (s : FS) (p : String) : Bool :=
  match s.lookup p with
  | some (.file c) => (_parse_message_file (dirName p) c).isSome
  | _ => false

/-- Concrete store for exercising a full dequeue: two envelopes, one of
them with an existing attachment. -/
def fsC3 : FS :=
  ⟨[("/messages/paul/inbox/a.md", FsFile.file
      "=== HEADER ===\nfrom: david\nto: paul\nsent_at: t1\n\nhello\n\n=== FOOTER ===\nattachments:\n- /messages/paul/inbox/att1.txt\n"),
    ("/messages/paul/inbox/att1.txt", FsFile.file "file body"),
    ("/messages/paul/inbox/b.md", FsFile.file
      "=== HEADER ===\nfrom: x\nto: paul\nsent_at: t2\n\nhi\n\n=== FOOTER ===\nreply_url: /messages?from=paul&to=x\n")],
   ["/messages/paul/inbox"], []⟩

/-- Everything in a response message except the attachments block. -/
def coreOf (m : Message) : String × String × String × String :=
  (m.fromAgent, m.toAgent, m.sent_at, m.message)

/-- The response message at a given position decodes the envelope at the
given path (up to the attachments block, whose bytes are read later). -/
def coreMatches (s : FS) (mapped p : String) (m : Message) : Prop :=
  (messageOf s mapped p).map coreOf = some (coreOf m)

/-- Concrete store for exercising the ordering contract. -/
def fsC7 : FS :=
  ⟨[("/messages/paul/inbox/a.md", FsFile.file
      "=== HEADER ===\nfrom: david\nto: paul\nsent_at: t1\n\nhello\n\n=== FOOTER ===\nattachments:\n- /messages/paul/inbox/att1.txt\n"),
    ("/messages/paul/inbox/att1.txt", FsFile.file "file body"),
    ("/messages/paul/inbox/b.md", FsFile.file
      "=== HEADER ===\nfrom: x\nto: paul\nsent_at: t2\n\nhi\n\n=== FOOTER ===\nreply_url: /messages?from=paul&to=x\n")],
   ["/messages/paul/inbox"], []⟩

theorem char_toNat_ofNat_lt (n : Nat) (h : n < 55296) : (Char.ofNat n).toNat = n := by
  unfold Char.ofNat
  rw [dif_pos (Or.inl (by omega : n < 0xD800))]
  rfl

theorem char_toNat_inj {c d : Char} (h : c.toNat = d.toNat) : c = d := by
  have := congrArg Char.ofNat h
  simpa using this

/-- Lowercasing never produces an ASCII capital letter. -/
theorem pyLowerChar_not_upper (c : Char) :
    ¬ (65 ≤ (pyLowerChar c).toNat ∧ (pyLowerChar c).toNat ≤ 90) := by
  unfold pyLowerChar
  split
  case isTrue h =>
    rw [char_toNat_ofNat_lt _ (by omega)]
    omega
  case isFalse h =>
    split
    case isTrue h2 =>
      rw [char_toNat_ofNat_lt _ (by omega)]
      omega
    case isFalse h2 => omega

/-! ## C5: agent-name canonicalization -/

/-- C5 counterexample: the input consisting of the single letter a-with-
diaeresis is accepted by sanitize_agent_name unchanged, yet it is not in
the claimed character set a-z, 0-9, dash, underscore (Python isalnum
accepts non-ASCII alphanumerics). -/
theorem sanitize_agent_name_unicode_counterexample :
    sanitize_agent_name "ä" = Except.ok "ä" ∧
      'ä' ∈ ("ä" : String).data ∧ ¬ asciiCanonChar 'ä' := by
  refine ⟨by rfl, by decide, by decide⟩

/-- C5 (amended): an accepted input canonicalizes to its trimmed
lowercased form, which is non-empty, contains no ASCII capital letter,
and consists of characters that are Python-alphanumeric or dash or
underscore (a superset of a-z0-9_- admitting non-ASCII alphanumerics);
and an input whose trimmed lowercased form is empty or contains a
character outside that set is rejected with InvalidAgentName. -/
theorem sanitize_agent_name_charset (s : String) :
    (∀ out, sanitize_agent_name s = .ok out →
      out = pyLower (pyStrip s) ∧ out ≠ "" ∧
      ∀ c ∈ out.data, (pyIsAlnumChar c = true ∨ c = '-' ∨ c = '_') ∧
        ¬ (65 ≤ c.toNat ∧ c.toNat ≤ 90)) ∧
    ((pyLower (pyStrip s) = "" ∨
      ∃ c ∈ (pyLower (pyStrip s)).data, ¬ (pyIsAlnumChar c = true ∨ c = '-' ∨ c = '_')) →
      ∃ e, sanitize_agent_name s = .error e) := by
  constructor
  · intro out h
    unfold sanitize_agent_name at h
    split at h
    · exact absurd h (by simp)
    next h1 =>
      split at h
      · exact absurd h (by simp)
      next h2 =>
        have hout : out = pyLower (pyStrip s) := by
          injection h with h
          exact h.symm
        refine ⟨hout, by rw [hout]; exact h1, ?_⟩
        intro c hc
        constructor
        · have h3 := (List.any_eq_false).mp (Bool.not_eq_true _ |>.mp h2) c (hout ▸ hc)
          by_contra hfalse
          push_neg at hfalse
          obtain ⟨hf1, hf2, hf3⟩ := hfalse
          simp [hf1, hf2, hf3] at h3
        · have : c ∈ (pyLower (pyStrip s)).data := hout ▸ hc
          unfold pyLower at this
          simp only [List.mem_map] at this
          obtain ⟨c0, _, hc0⟩ := this
          rw [← hc0]
          exact pyLowerChar_not_upper c0
  · intro h
    unfold sanitize_agent_name
    split
    · exact ⟨_, rfl⟩
    next h1 =>
      rcases h with h | ⟨c, hc, hbad⟩
      · exact absurd h h1
      · rw [if_pos ?_]
        · exact ⟨_, rfl⟩
        · refine List.any_eq_true.mpr ⟨c, hc, ?_⟩
          simp only [Bool.not_eq_true', Bool.or_eq_false_iff]
          push_neg at hbad
          obtain ⟨hb1, hb2, hb3⟩ := hbad
          refine ⟨⟨Bool.not_eq_true _ |>.mp hb1, ?_⟩, ?_⟩ <;> simp [hb2, hb3]

/-- C5 witness: the charset theorem applied at a concrete accepted input
and at a concrete rejected input. -/
theorem sanitize_agent_name_charset_witness :
    ("foo" = pyLower (pyStrip " Foo ") ∧ "foo" ≠ "" ∧
      ∀ c ∈ ("foo" : String).data, (pyIsAlnumChar c = true ∨ c = '-' ∨ c = '_') ∧
        ¬ (65 ≤ c.toNat ∧ c.toNat ≤ 90)) ∧
    (∃ e, sanitize_agent_name "a!" = .error e) :=
  ⟨(sanitize_agent_name_charset " Foo ").1 "foo" (by rfl),
   (sanitize_agent_name_charset "a!").2 (Or.inr ⟨'!', by decide, by decide⟩)⟩

/-! ## C8: token resolution and empty inboxes -/

theorem append_ne_of_long (pre p q : String) (h : q.length < pre.length) :
    pre ++ p ≠ q := by
  intro he
  have hlen := congrArg String.length he
  rw [String.length_append] at hlen
  omega

theorem fetchLoop_ne_unknown (mapped : String) (ps : List String) (s : FS) :
    (fetchLoop mapped ps s).1 ≠ .error "Unknown agent id" := by
  induction ps generalizing s with
  | nil => simp [fetchLoop]
  | cons p rest ih =>
    intro h
    simp only [fetchLoop] at h
    cases hl : FS.lookup s p with
    | none =>
      rw [hl] at h
      simp only at h
      injection h with h
      exact append_ne_of_long "Missing message file: " p "Unknown agent id" (by decide) h
    | some f =>
      rw [hl] at h
      cases f with
      | zip members =>
        simp only at h
        injection h with h
        exact append_ne_of_long "Unreadable message file: " p "Unknown agent id" (by decide) h
      | file c =>
        simp only at h
        cases hp : _parse_message_file (dirName p) c with
        | none =>
          rw [hp] at h
          simp only at h
          injection h with h
          exact append_ne_of_long "Malformed message file: " p "Unknown agent id" (by decide) h
        | some parsed =>
          rw [hp] at h
          obtain ⟨header, message_text, attachment_paths⟩ := parsed
          simp only at h
          rcases hr : fetchLoop mapped rest (_archive_processed_message s p attachment_paths)
            with ⟨res, s2⟩
          rw [hr] at h
          cases res with
          | ok msgs => simp at h
          | error e =>
            simp only at h
            injection h with h
            exact ih _ (by rw [hr, h])

/-- C8: fetch fails with the unknown-token error exactly when the token
does not resolve through the id map to a (non-empty) agent name; when it
resolves, a missing inbox directory or an inbox with no envelope files
yields a successful empty result with the state untouched. -/
theorem fetch_unknown_token_and_empty_inbox (idMap : List (String × String))
    (root agent_id : String) (s : FS) :
    ((fetch_messages_by_id idMap root agent_id s).1 = .error "Unknown agent id" ↔
      (dictGet idMap (pyStrip agent_id) = none ∨
        dictGet idMap (pyStrip agent_id) = some "")) ∧
    (∀ mapped, dictGet idMap (pyStrip agent_id) = some mapped → mapped ≠ "" →
      (s.dirExists (root ++ "/" ++ mapped ++ "/inbox") = false ∨
        s.sortedMdFiles (root ++ "/" ++ mapped ++ "/inbox") = []) →
      fetch_messages_by_id idMap root agent_id s = (.ok [], s)) := by
  constructor
  · constructor
    · intro h
      unfold fetch_messages_by_id at h
      cases hd : dictGet idMap (pyStrip agent_id) with
      | none => exact Or.inl rfl
      | some mapped =>
        rw [hd] at h
        simp only at h
        by_cases hm : mapped = ""
        · exact Or.inr (by rw [hm])
        · rw [if_neg hm] at h
          by_cases hdir : s.dirExists (root ++ "/" ++ mapped ++ "/inbox") = true
          · rw [if_pos hdir] at h
            exact absurd h (fetchLoop_ne_unknown _ _ _)
          · rw [if_neg hdir] at h
            simp at h
    · intro h
      unfold fetch_messages_by_id
      rcases h with h | h
      · rw [h]
      · rw [h]
        simp
  · intro mapped hm hne hcase
    unfold fetch_messages_by_id
    rw [hm]
    simp only
    rw [if_neg hne]
    rcases hcase with hc | hc
    · rw [hc]
      simp
    · by_cases hdir : s.dirExists (root ++ "/" ++ mapped ++ "/inbox") = true
      · rw [if_pos hdir, hc]
        rfl
      · rw [if_neg hdir]

/-- C8 witness: the theorem applied to a resolvable token over an empty
store. -/
theorem fetch_unknown_token_and_empty_inbox_witness :
    fetch_messages_by_id [("tok", "paul")] "/messages" "tok" ⟨[], [], []⟩ =
      (.ok [], ⟨[], [], []⟩) :=
  (fetch_unknown_token_and_empty_inbox [("tok", "paul")] "/messages" "tok"
    ⟨[], [], []⟩).2 "paul" (by rfl) (by decide) (Or.inl (by rfl))

/-! ## C10: missing header keys -/

/-- C10: an envelope file containing both marker lines decodes even
when mandatory header keys are missing, and the dequeue result
substitutes, independently for each key, the empty string for a missing
sender or timestamp and the token's resolved agent name for a missing
recipient, while returning any key that is present unchanged. -/
theorem fetch_missing_header_defaults
    (idMap : List (String × String)) (root agent_id mapped p c : String) (s : FS)
    (hres : dictGet idMap (pyStrip agent_id) = some mapped)
    (hm : mapped ≠ "")
    (hdir : s.dirExists (root ++ "/" ++ mapped ++ "/inbox") = true)
    (hscan : s.sortedMdFiles (root ++ "/" ++ mapped ++ "/inbox") = [p])
    (hfile : s.lookup p = some (.file c))
    (hmark1 : (nlLines c).contains headerMark = true)
    (hmark2 : (nlLines c).contains footerMark = true) :
    ∃ hdr text atts,
      _parse_message_file (dirName p) c = some (hdr, text, atts) ∧
      ∃ m, (fetch_messages_by_id idMap root agent_id s).1 = .ok [m] ∧
        m.message = text ∧ m.attachments = msgAttachments s atts ∧
        (dictGet hdr "from" = none → m.fromAgent = "") ∧
        (dictGet hdr "to" = none → m.toAgent = mapped) ∧
        (dictGet hdr "sent_at" = none → m.sent_at = "") ∧
        (∀ v, dictGet hdr "from" = some v → m.fromAgent = v) ∧
        (∀ v, dictGet hdr "to" = some v → m.toAgent = v) ∧
        (∀ v, dictGet hdr "sent_at" = some v → m.sent_at = v) := by
  have hparse : ∃ hdr text atts, _parse_message_file (dirName p) c = some (hdr, text, atts) := by
    unfold _parse_message_file
    rw [if_pos (by rw [hmark1, hmark2]; rfl)]
    exact ⟨_, _, _, rfl⟩
  obtain ⟨hdr, text, atts, hp⟩ := hparse
  refine ⟨hdr, text, atts, hp, ?_⟩
  refine ⟨{ fromAgent := (dictGet hdr "from").getD ""
            toAgent := (dictGet hdr "to").getD mapped
            sent_at := (dictGet hdr "sent_at").getD ""
            message := text
            attachments := msgAttachments s atts }, ?_, rfl, rfl, ?_, ?_, ?_, ?_, ?_, ?_⟩
  · unfold fetch_messages_by_id
    rw [hres]
    simp only
    rw [if_neg hm, if_pos hdir, hscan]
    simp only [fetchLoop, hfile, hp]
  · intro h
    show (dictGet hdr "from").getD "" = ""
    rw [h]
    rfl
  · intro h
    show (dictGet hdr "to").getD mapped = mapped
    rw [h]
    rfl
  · intro h
    show (dictGet hdr "sent_at").getD "" = ""
    rw [h]
    rfl
  · intro v h
    show (dictGet hdr "from").getD "" = v
    rw [h]
    rfl
  · intro v h
    show (dictGet hdr "to").getD mapped = v
    rw [h]
    rfl
  · intro v h
    show (dictGet hdr "sent_at").getD "" = v
    rw [h]
    rfl

/-- C10 witness: a concrete envelope whose header carries from and
sent_at but no to line: decoding succeeds, the present keys come back
unchanged and the missing recipient is replaced by the token's agent. -/
theorem fetch_missing_header_defaults_witness :
    ∃ hdr text atts,
      _parse_message_file (dirName "/messages/paul/inbox/a.md")
          (pyJoinNl ["=== HEADER ===", "from: david", "sent_at: t", "", "hi", "",
            "=== FOOTER ===", "reply_url: /messages?from=paul&to=david"] ++ "\n")
        = some (hdr, text, atts) ∧
      ∃ m, (fetch_messages_by_id [("tok", "paul")] "/messages" "tok"
          ⟨[("/messages/paul/inbox/a.md", .file (pyJoinNl ["=== HEADER ===", "from: david",
            "sent_at: t", "", "hi", "", "=== FOOTER ===",
            "reply_url: /messages?from=paul&to=david"] ++ "\n"))],
           ["/messages/paul/inbox"], []⟩).1 = .ok [m] ∧
        m.message = text ∧
        m.attachments = msgAttachments
          ⟨[("/messages/paul/inbox/a.md", .file (pyJoinNl ["=== HEADER ===", "from: david",
            "sent_at: t", "", "hi", "", "=== FOOTER ===",
            "reply_url: /messages?from=paul&to=david"] ++ "\n"))],
           ["/messages/paul/inbox"], []⟩ atts ∧
        (dictGet hdr "from" = none → m.fromAgent = "") ∧
        (dictGet hdr "to" = none → m.toAgent = "paul") ∧
        (dictGet hdr "sent_at" = none → m.sent_at = "") ∧
        (∀ v, dictGet hdr "from" = some v → m.fromAgent = v) ∧
        (∀ v, dictGet hdr "to" = some v → m.toAgent = v) ∧
        (∀ v, dictGet hdr "sent_at" = some v → m.sent_at = v) :=
  fetch_missing_header_defaults [("tok", "paul")] "/messages" "tok" "paul"
    "/messages/paul/inbox/a.md"
    (pyJoinNl ["=== HEADER ===", "from: david", "sent_at: t", "", "hi", "",
      "=== FOOTER ===", "reply_url: /messages?from=paul&to=david"] ++ "\n")
    ⟨[("/messages/paul/inbox/a.md", .file (pyJoinNl ["=== HEADER ===", "from: david",
      "sent_at: t", "", "hi", "", "=== FOOTER ===",
      "reply_url: /messages?from=paul&to=david"] ++ "\n"))],
     ["/messages/paul/inbox"], []⟩
    (by rfl) (by decide) (by rfl) (by rfl) (by rfl) (by rfl) (by rfl)

/-! ## Line-splitting lemmas -/

theorem breakLines_ne_nil (cs : List Char) : breakLines cs ≠ [] := by
  induction cs with
  | nil => simp [breakLines]
  | cons c rest ih =>
    simp only [breakLines]
    split
    · simp
    · split
      · simp
      · simp

theorem breakLines_append_newline (a b : List Char) :
    breakLines (a ++ '\n' :: b) = breakLines a ++ breakLines b := by
  induction a with
  | nil => simp [breakLines]
  | cons c a ih =>
    by_cases hc : c = '\n'
    · subst hc
      rw [List.cons_append]
      simp only [breakLines, if_pos rfl, ih]
      rfl
    · rw [List.cons_append]
      simp only [breakLines, if_neg hc, ih]
      cases h : breakLines a with
      | nil => exact absurd h (breakLines_ne_nil a)
      | cons l ls => simp

theorem breakLines_no_newline {cs : List Char} (h : '\n' ∉ cs) : breakLines cs = [cs] := by
  induction cs with
  | nil => rfl
  | cons c rest ih =>
    have hc : ¬ c = '\n' := fun hce => h (hce ▸ List.mem_cons_self c rest)
    have hrest : '\n' ∉ rest := fun hm => h (List.mem_cons_of_mem c hm)
    simp only [breakLines, if_neg hc, ih hrest]

theorem joinNlData_cons (l : List Char) (xs : List (List Char)) (h : xs ≠ []) :
    joinNlData (l :: xs) = l ++ '\n' :: joinNlData xs := by
  cases xs with
  | nil => exact absurd rfl h
  | cons y ys => rfl

theorem joinNlData_breakLines (cs : List Char) : joinNlData (breakLines cs) = cs := by
  induction cs with
  | nil => rfl
  | cons c rest ih =>
    by_cases hc : c = '\n'
    · subst hc
      have hb : breakLines ('\n' :: rest) = [] :: breakLines rest := by
        simp [breakLines]
      rw [hb, joinNlData_cons _ _ (breakLines_ne_nil rest), ih]
      rfl
    · simp only [breakLines, if_neg hc]
      cases h : breakLines rest with
      | nil => exact absurd h (breakLines_ne_nil rest)
      | cons l ls =>
        rw [h] at ih
        cases ls with
        | nil =>
          simp only [joinNlData] at ih ⊢
          rw [ih]
        | cons y ys =>
          rw [joinNlData_cons _ _ (by simp)] at ih
          rw [joinNlData_cons _ _ (by simp), List.cons_append, ih]

theorem breakLines_joinNl (p : List Char) (parts : List (List Char)) :
    breakLines (joinNlData (p :: parts) ++ ['\n']) =
      (p :: parts).flatMap breakLines ++ [[]] := by
  induction parts generalizing p with
  | nil =>
    show breakLines (p ++ '\n' :: []) = _
    rw [breakLines_append_newline]
    simp [breakLines]
  | cons q qs ih =>
    rw [joinNlData_cons _ _ (by simp), List.append_assoc, List.cons_append,
      breakLines_append_newline, ih q]
    simp [List.flatMap_cons, List.append_assoc]

theorem nlLines_joinNl (p : String) (parts : List String) :
    nlLines (pyJoinNl (p :: parts) ++ "\n") =
      (((p :: parts).map String.data).flatMap breakLines).map String.mk := by
  unfold nlLines pyJoinNl
  have hdata : (String.mk (joinNlData ((p :: parts).map String.data)) ++ "\n").data
      = joinNlData (p.data :: parts.map String.data) ++ ['\n'] := by
    rw [String.data_append]
    rfl
  rw [hdata, if_neg (by simp), breakLines_joinNl p.data (parts.map String.data),
    List.getLast?_concat, if_pos rfl, List.dropLast_concat]
  rfl

theorem flatMap_breakLines_id (ls : List String) (h : ∀ l ∈ ls, '\n' ∉ l.data) :
    ((ls.map String.data).flatMap breakLines).map String.mk = ls := by
  induction ls with
  | nil => rfl
  | cons x xs ih =>
    rw [List.map_cons, List.flatMap_cons,
      breakLines_no_newline (h x (List.mem_cons_self x xs)), List.map_append,
      ih (fun l hl => h l (List.mem_cons_of_mem x hl))]
    rfl

theorem nlLines_joinNl_lines (p : String) (parts : List String)
    (h : ∀ l ∈ p :: parts, '\n' ∉ l.data) :
    nlLines (pyJoinNl (p :: parts) ++ "\n") = p :: parts := by
  rw [nlLines_joinNl]
  exact flatMap_breakLines_id (p :: parts) h

/-! ## Strip and index lemmas -/

theorem pyStripData_eq_self_of_ends {cs : List Char}
    (h1 : ∀ c, cs.head? = some c → pyIsSpaceChar c = false)
    (h2 : ∀ c, cs.getLast? = some c → pyIsSpaceChar c = false) :
    pyStripData cs = cs := by
  unfold pyStripData
  have hd : cs.dropWhile pyIsSpaceChar = cs := by
    cases cs with
    | nil => rfl
    | cons c rest => rw [List.dropWhile_cons, if_neg (by rw [h1 c rfl]; simp)]
  rw [hd]
  have hrev : cs.reverse.dropWhile pyIsSpaceChar = cs.reverse := by
    cases hr : cs.reverse with
    | nil => rfl
    | cons c rest =>
      have hlast : cs.getLast? = some c := by
        rw [← List.head?_reverse, hr]
        rfl
      rw [List.dropWhile_cons, if_neg (by rw [h2 c hlast]; simp)]
  rw [hrev, List.reverse_reverse]

theorem pyStripData_append_ws {ds : List Char} (h : ∀ c ∈ ds, pyIsSpaceChar c = true)
    (cs : List Char) : pyStripData (cs ++ ds) = pyStripData cs := by
  unfold pyStripData
  rw [List.dropWhile_append]
  split
  case isTrue hemp =>
    have hds : ds.dropWhile pyIsSpaceChar = [] := by
      rw [List.dropWhile_eq_nil_iff]
      exact h
    have hcs : cs.dropWhile pyIsSpaceChar = [] := by
      cases he : cs.dropWhile pyIsSpaceChar with
      | nil => rfl
      | cons x xs => rw [he] at hemp; simp at hemp
    rw [hds, hcs]
  case isFalse hemp =>
    rw [List.reverse_append,
      List.dropWhile_append_of_pos (fun a ha => h a (List.mem_reverse.mp ha))]

theorem pyStrip_eq_self_of_ends {s : String}
    (h1 : ∀ c, s.data.head? = some c → pyIsSpaceChar c = false)
    (h2 : ∀ c, s.data.getLast? = some c → pyIsSpaceChar c = false) :
    pyStrip s = s := by
  unfold pyStrip
  rw [pyStripData_eq_self_of_ends h1 h2]

theorem pyIndex_cons_self (x : String) (rest : List String) :
    pyIndex (x :: rest) x = some 0 := by
  simp [pyIndex]

theorem pyIndex_append_cons (a : List String) (x : String) (b : List String)
    (h : x ∉ a) : pyIndex (a ++ x :: b) x = some a.length := by
  induction a with
  | nil => simp [pyIndex]
  | cons y ys ih =>
    have hyx : ¬ (y = x) := fun he => h (he ▸ List.mem_cons_self y ys)
    rw [List.cons_append]
    show pyIndex (y :: (ys ++ x :: b)) x = some (y :: ys).length
    unfold pyIndex
    rw [if_neg hyx, ih (fun hm => h (List.mem_cons_of_mem y hm))]
    rfl

/-! ## Decomposing the decoder on a marker-delimited line list -/

theorem headerStartOf_decomp (mid post : List String) :
    headerStartOf (headerMark :: (mid ++ footerMark :: post)) = 1 := by
  unfold headerStartOf
  rw [pyIndex_cons_self]
  rfl

theorem footerStartOf_decomp (mid post : List String) (hlast : footerMark ∉ post) :
    footerStartOf (headerMark :: (mid ++ footerMark :: post)) = mid.length + 1 := by
  unfold footerStartOf
  have hrev : (headerMark :: (mid ++ footerMark :: post)).reverse
      = post.reverse ++ footerMark :: (mid.reverse ++ [headerMark]) := by
    rw [List.reverse_cons, List.reverse_append, List.reverse_cons]
    simp [List.append_assoc]
  rw [hrev, pyIndex_append_cons _ _ _ (fun hm => hlast (List.mem_reverse.mp hm))]
  simp only [List.length_cons, List.length_append, List.length_reverse, Option.getD_some]
  omega

theorem headerSliceOf_decomp (mid post : List String) (hlast : footerMark ∉ post) :
    headerSliceOf (headerMark :: (mid ++ footerMark :: post)) = mid := by
  unfold headerSliceOf
  rw [headerStartOf_decomp, footerStartOf_decomp _ _ hlast]
  simp only [List.drop_succ_cons, List.drop_zero, Nat.add_sub_cancel]
  exact List.take_left' rfl

theorem attachmentsOf_decomp (parentDir : String) (mid post : List String)
    (hlast : footerMark ∉ post) :
    attachmentsOf parentDir (headerMark :: (mid ++ footerMark :: post))
      = post.filterMap (attachmentOfLine parentDir) := by
  unfold attachmentsOf
  rw [footerStartOf_decomp _ _ hlast]
  have hX : mid ++ footerMark :: post = (mid ++ [footerMark]) ++ post := by simp
  show ((headerMark :: (mid ++ footerMark :: post)).drop (mid.length + 1 + 1)).filterMap _ = _
  rw [List.drop_succ_cons, hX, List.drop_left' (by simp)]

theorem headerDictOf_decomp (mid post : List String) (hlast : footerMark ∉ post) :
    headerDictOf (headerMark :: (mid ++ footerMark :: post)) = headerOfLines mid := by
  unfold headerDictOf headerOfLines blankIdxOf
  rw [headerSliceOf_decomp _ _ hlast]

theorem messageTextOf_decomp (mid post : List String) (hlast : footerMark ∉ post) :
    messageTextOf (headerMark :: (mid ++ footerMark :: post)) = bodyOfLines mid := by
  unfold messageTextOf bodyOfLines bodyStartOf blankIdxOf
  rw [headerSliceOf_decomp _ _ hlast, headerStartOf_decomp, footerStartOf_decomp _ _ hlast]
  cases hidx : mid.findIdx? (fun l => pyStrip l = "") with
  | none =>
    simp only [List.drop_succ_cons, List.drop_zero, Nat.add_sub_cancel]
    rw [List.take_left' rfl]
  | some i =>
    have hlt : i < mid.length := by
      obtain ⟨hl, -, -⟩ := List.findIdx?_eq_some_iff_getElem.mp hidx
      exact hl
    simp only
    have h1 : (headerMark :: (mid ++ footerMark :: post)).drop (1 + i + 1)
        = mid.drop (i + 1) ++ footerMark :: post := by
      have : 1 + i + 1 = (i + 1) + 1 := by omega
      rw [this, List.drop_succ_cons, List.drop_append_eq_append_drop,
        show (i + 1) - mid.length = 0 from by omega, List.drop_zero]
    rw [h1, show mid.length + 1 - (1 + i + 1) = (mid.drop (i + 1)).length from by
      simp only [List.length_drop]; omega]
    rw [List.take_left]

/-- The decomposition of the decoder on a marker-delimited line list:
everything strictly between the header marker and the last footer marker
is header/body text, the attachments come from the lines after the last
marker. -/
theorem parse_last_footer_core (parentDir : String) (mid post : List String)
    (hmid : ∀ l ∈ mid, '\n' ∉ l.data)
    (hpost : ∀ l ∈ post, '\n' ∉ l.data)
    (hlast : footerMark ∉ post) :
    _parse_message_file parentDir
        (pyJoinNl (headerMark :: (mid ++ footerMark :: post)) ++ "\n") =
      some (headerOfLines mid, bodyOfLines mid,
        post.filterMap (attachmentOfLine parentDir)) := by
  have hlines : nlLines (pyJoinNl (headerMark :: (mid ++ footerMark :: post)) ++ "\n")
      = headerMark :: (mid ++ footerMark :: post) := by
    apply nlLines_joinNl_lines
    intro l hl
    rcases List.mem_cons.mp hl with rfl | hl
    · decide
    rcases List.mem_append.mp hl with h | h
    · exact hmid l h
    rcases List.mem_cons.mp h with rfl | h
    · decide
    · exact hpost l h
  unfold _parse_message_file
  rw [hlines, if_pos (by simp)]
  rw [headerDictOf_decomp _ _ hlast, messageTextOf_decomp _ _ hlast,
    attachmentsOf_decomp _ _ _ hlast]

/-- C1 (amended): decoding stops body capture at the LAST footer marker
line: the attachments are parsed exclusively from the lines after that
last marker, and everything strictly between the header marker and the
last footer marker is treated as header/body text, even when it contains
lines equal to the footer marker or shaped like attachment references. -/
theorem parse_stops_at_last_footer (parentDir : String) (mid post : List String)
    (hmid : ∀ l ∈ mid, '\n' ∉ l.data)
    (hpost : ∀ l ∈ post, '\n' ∉ l.data)
    (hlast : footerMark ∉ post) :
    _parse_message_file parentDir
        (pyJoinNl (headerMark :: (mid ++ footerMark :: post)) ++ "\n") =
      some (headerOfLines mid, bodyOfLines mid,
        post.filterMap (attachmentOfLine parentDir)) :=
  parse_last_footer_core parentDir mid post hmid hpost hlast

/-! ## Trimmed strings and canonical characters -/

theorem length_dropWhile_le (p : Char → Bool) (l : List Char) :
    (l.dropWhile p).length ≤ l.length := by
  induction l with
  | nil => simp
  | cons c rest ih =>
    rw [List.dropWhile_cons]
    split
    · exact Nat.le_trans ih (by simp)
    · simp

theorem pyStripData_length_le (cs : List Char) :
    (pyStripData cs).length ≤ cs.length := by
  unfold pyStripData
  rw [List.length_reverse]
  calc ((cs.dropWhile pyIsSpaceChar).reverse.dropWhile pyIsSpaceChar).length
      ≤ (cs.dropWhile pyIsSpaceChar).reverse.length := length_dropWhile_le _ _
    _ = (cs.dropWhile pyIsSpaceChar).length := List.length_reverse _
    _ ≤ cs.length := length_dropWhile_le _ _

theorem pyStripData_ws_front {ds : List Char} (h : ∀ c ∈ ds, pyIsSpaceChar c = true)
    (cs : List Char) : pyStripData (ds ++ cs) = pyStripData cs := by
  unfold pyStripData
  rw [List.dropWhile_append_of_pos h]

theorem trimmed_head_not_ws {s : String} (h : pyStrip s = s) :
    ∀ c, s.data.head? = some c → pyIsSpaceChar c = false := by
  intro c hc
  have hdata : pyStripData s.data = s.data := congrArg String.data h
  by_contra hws
  rw [Bool.not_eq_false] at hws
  cases hd : s.data with
  | nil => rw [hd] at hc; cases hc
  | cons c0 rest =>
    rw [hd] at hc
    injection hc with hc
    rw [← hc] at hws
    have hlen := congrArg List.length hdata
    rw [hd] at hlen
    have hdrop : (c0 :: rest).dropWhile pyIsSpaceChar = rest.dropWhile pyIsSpaceChar := by
      rw [List.dropWhile_cons, if_pos hws]
    have hfin : (pyStripData (c0 :: rest)).length ≤ rest.length := by
      unfold pyStripData
      rw [hdrop, List.length_reverse]
      calc ((rest.dropWhile pyIsSpaceChar).reverse.dropWhile pyIsSpaceChar).length
          ≤ (rest.dropWhile pyIsSpaceChar).reverse.length := length_dropWhile_le _ _
        _ = (rest.dropWhile pyIsSpaceChar).length := List.length_reverse _
        _ ≤ rest.length := length_dropWhile_le _ _
    rw [hlen] at hfin
    simp at hfin

theorem trimmed_last_not_ws {s : String} (h : pyStrip s = s) :
    ∀ c, s.data.getLast? = some c → pyIsSpaceChar c = false := by
  intro c hc
  have hdata : pyStripData s.data = s.data := congrArg String.data h
  by_contra hws
  rw [Bool.not_eq_false] at hws
  have hrev : s.data.reverse.head? = some c := by rw [List.head?_reverse]; exact hc
  cases hr : s.data.reverse with
  | nil => rw [hr] at hrev; cases hrev
  | cons c0 t =>
    rw [hr] at hrev
    injection hrev with hrev
    rw [← hrev] at hws
    have hsplit : s.data = t.reverse ++ [c0] := by
      have := congrArg List.reverse hr
      rw [List.reverse_reverse] at this
      rw [this, List.reverse_cons]
    have hsw : pyStripData (t.reverse ++ [c0]) = pyStripData t.reverse :=
      pyStripData_append_ws (by intro x hx; rcases List.mem_singleton.mp hx with rfl; exact hws) _
    have hlen := congrArg List.length hdata
    rw [hsplit, hsw] at hlen
    have hle := pyStripData_length_le t.reverse
    rw [hlen] at hle
    simp [List.length_append] at hle

/-- Characters allowed in canonical agent names are not whitespace. -/
theorem canon_not_space {c : Char} (h : asciiCanonChar c) : pyIsSpaceChar c = false := by
  unfold asciiCanonChar at h
  cases hb : pyIsSpaceChar c
  · rfl
  · exfalso
    unfold pyIsSpaceChar at hb
    simp only [Bool.or_eq_true, Bool.and_eq_true, decide_eq_true_eq] at hb
    omega

/-- Characters allowed in canonical agent names are not newlines. -/
theorem canon_ne_newline {c : Char} (h : asciiCanonChar c) : ¬ c = '\n' := by
  intro he
  have h10 : c.toNat = 10 := by rw [he]; rfl
  unfold asciiCanonChar at h
  omega

theorem mk_data (s : String) : String.mk s.data = s := rfl

theorem data_eq_nil_iff (s : String) : s.data = [] ↔ s = "" :=
  ⟨fun h => by rw [← mk_data s, h], fun h => by rw [h]⟩

theorem joinNlData_append (xs ys : List (List Char)) (hx : xs ≠ []) (hy : ys ≠ []) :
    joinNlData (xs ++ ys) = joinNlData xs ++ '\n' :: joinNlData ys := by
  induction xs with
  | nil => exact absurd rfl hx
  | cons x xs ih =>
    cases xs with
    | nil =>
      rw [List.singleton_append, joinNlData_cons _ _ hy]
      rfl
    | cons y ys2 =>
      rw [List.cons_append, joinNlData_cons _ _ (by simp),
        joinNlData_cons _ _ (by simp), ih (by simp)]
      simp [List.append_assoc]

theorem joinNlData_append_empty (xs : List (List Char)) (h : xs ≠ []) :
    joinNlData (xs ++ [[]]) = joinNlData xs ++ ['\n'] := by
  rw [joinNlData_append xs [[]] h (by simp)]
  rfl

theorem breakLines_no_nl (cs : List Char) : ∀ l ∈ breakLines cs, '\n' ∉ l := by
  induction cs with
  | nil =>
    intro l hl
    rcases List.mem_singleton.mp hl with rfl
    simp
  | cons c rest ih =>
    intro l hl
    simp only [breakLines] at hl
    by_cases hc : c = '\n'
    · rw [if_pos hc] at hl
      rcases List.mem_cons.mp hl with rfl | hl
      · simp
      · exact ih l hl
    · rw [if_neg hc] at hl
      cases hbr : breakLines rest with
      | nil => exact absurd hbr (breakLines_ne_nil rest)
      | cons m ms =>
        rw [hbr] at hl
        simp only at hl
        rcases List.mem_cons.mp hl with rfl | hl
        · intro hmem
          rcases List.mem_cons.mp hmem with h10 | hmem2
          · exact hc h10.symm
          · exact ih m (hbr ▸ List.mem_cons_self m ms) hmem2
        · exact ih l (hbr ▸ List.mem_cons_of_mem m hl)

theorem canonical_headerValueOk {s : String} (h : CanonicalAgent s) : HeaderValueOk s := by
  obtain ⟨hne, hchars⟩ := h
  refine ⟨hne, ?_, ?_⟩
  · exact pyStrip_eq_self_of_ends
      (fun c hc => canon_not_space (hchars c (List.mem_of_mem_head? hc)))
      (fun c hc => canon_not_space (hchars c (List.mem_of_mem_getLast? hc)))
  · intro hmem
    exact canon_ne_newline (hchars _ hmem) rfl

theorem pyStrip_append_self (pre v : String) (hprene : pre ≠ "")
    (hhead : ∀ c, pre.data.head? = some c → pyIsSpaceChar c = false)
    (hvne : v ≠ "") (hvtrim : pyStrip v = v) :
    pyStrip (pre ++ v) = pre ++ v := by
  apply pyStrip_eq_self_of_ends
  · intro c hc
    rw [String.data_append, List.head?_append] at hc
    cases hh : pre.data.head? with
    | none =>
      exact absurd ((data_eq_nil_iff pre).mp (List.head?_eq_none_iff.mp hh)) hprene
    | some c0 =>
      rw [hh] at hc
      simp only [Option.or_some] at hc
      injection hc with hc
      exact hc ▸ hhead c0 hh
  · intro c hc
    rw [String.data_append, List.getLast?_append] at hc
    cases hg : v.data.getLast? with
    | none =>
      exact absurd ((data_eq_nil_iff v).mp (List.getLast?_eq_none_iff.mp hg)) hvne
    | some c0 =>
      rw [hg] at hc
      simp only [Option.or_some] at hc
      injection hc with hc
      exact hc ▸ trimmed_last_not_ws hvtrim c0 hg

theorem headerEntry_keyval (k v : String)
    (hkc : ∀ x ∈ k.data, ¬ (x = ':'))
    (hks : pyStrip k = k)
    (hline : pyStrip (k ++ ": " ++ v) = k ++ ": " ++ v)
    (hv : pyStrip v = v) :
    headerEntry (k ++ ": " ++ v) = some (k, v) := by
  have hdata : (k ++ ": " ++ v).data = k.data ++ ':' :: ' ' :: v.data := by
    rw [String.data_append, String.data_append, List.append_assoc]
    rfl
  have htake : (k.data ++ ':' :: ' ' :: v.data).takeWhile (fun c => !(c = ':')) = k.data := by
    rw [List.takeWhile_append_of_pos (by intro a ha; simp [hkc a ha]),
      List.takeWhile_cons, if_neg (by simp)]
    simp
  have hdrop : (k.data ++ ':' :: ' ' :: v.data).dropWhile (fun c => !(c = ':'))
      = ':' :: ' ' :: v.data := by
    rw [List.dropWhile_append_of_pos (by intro a ha; simp [hkc a ha]),
      List.dropWhile_cons, if_neg (by simp)]
  unfold headerEntry headerKeyOf headerValueOf
  rw [hline, hdata, htake, hdrop]
  rw [if_pos (by simp)]
  have hval : pyStrip (String.mk ((':' :: ' ' :: v.data).drop 1)) = v := by
    show pyStrip (String.mk (' ' :: v.data)) = v
    unfold pyStrip
    show String.mk (pyStripData ([' '] ++ v.data)) = v
    rw [pyStripData_ws_front (by intro c hcm; rcases List.mem_singleton.mp hcm with rfl; rfl)]
    rw [show pyStripData v.data = v.data from congrArg String.data hv, mk_data]
  rw [hval, mk_data, hks]

theorem attachmentOfLine_dash (parentDir p : String) (hp : PathOk p) :
    attachmentOfLine parentDir ("- " ++ p) = some p := by
  obtain ⟨hnl, htrim, habs⟩ := hp
  have hne : p ≠ "" := by
    intro he
    rw [he] at habs
    exact absurd habs (by decide)
  have hdata : ("- " ++ p).data = '-' :: ' ' :: p.data := by
    rw [String.data_append]
    rfl
  have hstrip : pyStrip ("- " ++ p) = "- " ++ p :=
    pyStrip_append_self "- " p (by decide) (by intro c hc; injection hc with hc; rw [← hc]; rfl)
      hne htrim
  have hraw : attachmentRawOf ("- " ++ p) = p := by
    unfold attachmentRawOf
    rw [hstrip, hdata]
    show pyStrip (String.mk p.data) = p
    rw [mk_data]
    exact htrim
  unfold attachmentOfLine
  rw [hstrip, hraw]
  rw [if_pos (by unfold pyStartsWith; rw [hdata]; simp [List.isPrefixOf]), if_pos habs]

/-- If a line starts (after stripping) with a non-whitespace character
other than a dash, it is not an attachment line. -/
theorem attachmentOfLine_none_of_head {L : String} {c : Char} (parentDir : String)
    (hc : L.data.head? = some c) (hnws : pyIsSpaceChar c = false)
    (hned : ('-' == c) = false) :
    attachmentOfLine parentDir L = none := by
  have hhead : ∃ t, (pyStrip L).data = c :: t := by
    cases hd : L.data with
    | nil => rw [hd] at hc; cases hc
    | cons c0 rest =>
      rw [hd] at hc
      injection hc with hc
      rw [← hc] at hnws hned ⊢
      show ∃ t, pyStripData L.data = c0 :: t
      rw [hd]
      unfold pyStripData
      rw [List.dropWhile_cons, if_neg (by rw [hnws]; simp), List.reverse_cons,
        List.dropWhile_append]
      split
      · rw [List.dropWhile_cons, if_neg (by rw [hnws]; simp)]
        exact ⟨[], by simp⟩
      · exact ⟨(rest.reverse.dropWhile pyIsSpaceChar).reverse, by
          rw [List.reverse_append]
          simp⟩
  obtain ⟨t, ht⟩ := hhead
  unfold attachmentOfLine
  rw [if_neg (by unfold pyStartsWith; rw [ht]; simp [List.isPrefixOf, hned])]

theorem head?_data_append_lit (lit : String) {c : Char} (h : lit.data.head? = some c)
    (x : String) : (lit ++ x).data.head? = some c := by
  rw [String.data_append, List.head?_append, h]
  rfl

theorem filterMap_attachment_dash (parentDir : String) (ps : List String)
    (h : ∀ p ∈ ps, PathOk p) :
    (ps.map (fun p => "- " ++ p)).filterMap (attachmentOfLine parentDir) = ps := by
  induction ps with
  | nil => rfl
  | cons p ps ih =>
    rw [List.map_cons, List.filterMap_cons,
      attachmentOfLine_dash parentDir p (h p (List.mem_cons_self p ps)),
      ih (fun q hq => h q (List.mem_cons_of_mem p hq))]

theorem findIdx_blank_three (h1 h2 h3 : String) (rest : List String)
    (n1 : ¬ pyStrip h1 = "") (n2 : ¬ pyStrip h2 = "") (n3 : ¬ pyStrip h3 = "") :
    (h1 :: h2 :: h3 :: "" :: rest).findIdx? (fun l => pyStrip l = "") = some 3 := by
  simp [List.findIdx?_cons, n1, n2, n3, show pyStrip "" = "" from rfl]

theorem joinNlData_splice_core (m : List Char) (C : List (List Char)) (hC : C ≠ []) :
    joinNlData (breakLines m ++ C) = m ++ '\n' :: joinNlData C := by
  rw [joinNlData_append (breakLines m) C (breakLines_ne_nil m) hC, joinNlData_breakLines]

/-- Joining a five-line header, a body given either as one raw chunk or
as its split lines, and a footer, produces the same character stream. -/
theorem joinNlData_splice5 (a1 a2 a3 a4 m c1 : List Char) (rest : List (List Char)) :
    joinNlData (a1 :: a2 :: a3 :: a4 :: [] :: (breakLines m ++ [] :: c1 :: rest))
      = joinNlData (a1 :: a2 :: a3 :: a4 :: [] :: m :: [] :: c1 :: rest) := by
  show joinNlData ([a1, a2, a3, a4, []] ++ (breakLines m ++ [] :: c1 :: rest))
      = joinNlData ([a1, a2, a3, a4, []] ++ (m :: [] :: c1 :: rest))
  rw [joinNlData_append _ _ (by simp)
      (fun h => breakLines_ne_nil m (List.append_eq_nil.mp h).1),
    joinNlData_splice_core m _ (by simp),
    joinNlData_append _ _ (by simp) (by simp),
    joinNlData_cons m ([] :: c1 :: rest) (by simp)]

/-! ## The stored-file reader on newline-only text -/

theorem uninl_eq_self : ∀ cs : List Char, '\r' ∉ cs → uninlData cs = cs
  | [], _ => rfl
  | [c], h => by
    have hc : c ≠ '\r' := fun he => h (he ▸ List.mem_cons_self c [])
    show uninlData [c] = [c]
    unfold uninlData
    rw [if_neg hc]
  | c :: d :: rest, h => by
    have hc : c ≠ '\r' := fun he => h (he ▸ List.mem_cons_self _ _)
    have ih := uninl_eq_self (d :: rest) (fun hm => h (List.mem_cons_of_mem c hm))
    show uninlData (c :: d :: rest) = c :: d :: rest
    unfold uninlData
    rw [if_neg hc, ih]

theorem breakLinesAt_congr (p q : Char → Bool) : ∀ cs : List Char,
    (∀ c ∈ cs, p c = q c) → breakLinesAt p cs = breakLinesAt q cs
  | [], _ => rfl
  | c :: rest, h => by
    have ih := breakLinesAt_congr p q rest (fun x hx => h x (List.mem_cons_of_mem c hx))
    have hc := h c (List.mem_cons_self c rest)
    unfold breakLinesAt
    rw [hc, ih]

theorem breakLinesAt_nl : ∀ cs : List Char,
    breakLinesAt (fun c => c = '\n') cs = breakLines cs
  | [] => rfl
  | c :: rest => by
    have ih := breakLinesAt_nl rest
    by_cases hc : c = '\n'
    · unfold breakLinesAt breakLines
      rw [if_pos (by simp [hc]), if_pos hc, ih]
    · unfold breakLinesAt breakLines
      rw [if_neg (by simp [hc]), if_neg hc, ih]

theorem readLines_eq_nlLines (s : String) (h : NlOnly s) : readLines s = nlLines s := by
  unfold readLines nlLines
  have h1 : uninlData s.data = s.data := uninl_eq_self s.data (fun hm => ((h _ hm).1 rfl))
  have h2 : breakLinesAt lineBoundaryChar s.data = breakLines s.data := by
    rw [breakLinesAt_congr lineBoundaryChar (fun c => c = '\n') s.data ?_, breakLinesAt_nl]
    intro c hc
    by_cases hcn : c = '\n'
    · rw [hcn]
      rfl
    · have hb : lineBoundaryChar c = false := by
        cases hlb : lineBoundaryChar c
        · rfl
        · exact absurd ((h c hc).2 hlb) hcn
      rw [hb]
      simp [hcn]
  rw [h1, h2]

theorem parse_stored_eq (parentDir : String) (s : String) (h : NlOnly s) :
    _parse_stored parentDir s = _parse_message_file parentDir s := by
  unfold _parse_stored _parse_message_file
  rw [readLines_eq_nlLines s h]

theorem breakLines_mem_subset : ∀ (cs l : List Char), l ∈ breakLines cs → ∀ c ∈ l, c ∈ cs
  | [], l, hl => by
    intro c hc
    rcases List.mem_singleton.mp (by exact hl) with rfl
    cases hc
  | d :: rest, l, hl => by
    intro c hc
    unfold breakLines at hl
    by_cases hd : d = '\n'
    · rw [if_pos hd] at hl
      rcases List.mem_cons.mp hl with rfl | hl2
      · cases hc
      · exact List.mem_cons_of_mem d (breakLines_mem_subset rest l hl2 c hc)
    · rw [if_neg hd] at hl
      cases hbr : breakLines rest with
      | nil => exact absurd hbr (breakLines_ne_nil rest)
      | cons l0 ls =>
        rw [hbr] at hl
        rcases List.mem_cons.mp hl with rfl | hl2
        · rcases List.mem_cons.mp hc with rfl | hc2
          · exact List.mem_cons_self c rest
          · exact List.mem_cons_of_mem d
              (breakLines_mem_subset rest l0 (hbr ▸ List.mem_cons_self l0 ls) c hc2)
        · exact List.mem_cons_of_mem d
            (breakLines_mem_subset rest l (hbr ▸ List.mem_cons_of_mem l0 hl2) c hc)

theorem mem_joinNlData (c : Char) : ∀ ls : List (List Char),
    c ∈ joinNlData ls → c = '\n' ∨ ∃ l ∈ ls, c ∈ l
  | [], h => by cases h
  | [l], h => Or.inr ⟨l, List.mem_cons_self l [], h⟩
  | l :: l2 :: ls, h => by
    have hsh : joinNlData (l :: l2 :: ls) = l ++ '\n' :: joinNlData (l2 :: ls) := rfl
    rw [hsh] at h
    rcases List.mem_append.mp h with h1 | h1
    · exact Or.inr ⟨l, List.mem_cons_self l _, h1⟩
    rcases List.mem_cons.mp h1 with rfl | h2
    · exact Or.inl rfl
    rcases mem_joinNlData c (l2 :: ls) h2 with h3 | ⟨l3, hl3, hc3⟩
    · exact Or.inl h3
    · exact Or.inr ⟨l3, List.mem_cons_of_mem l hl3, hc3⟩

/-- Canonical-agent characters are clean for the stored-file reader. -/
theorem asciiCanon_clean {c : Char} (h : asciiCanonChar c) :
    c ≠ '\r' ∧ (lineBoundaryChar c = true → c = '\n') := by
  unfold asciiCanonChar at h
  constructor
  · intro he
    have : c.toNat = 13 := by rw [he]; rfl
    omega
  · intro hb
    exfalso
    unfold lineBoundaryChar at hb
    simp only [Bool.or_eq_true, decide_eq_true_eq] at hb
    omega

/-! ## C2: codec round trip -/

/-- C2 (amended): encoding an envelope with canonical sender and
recipient, a non-empty already-trimmed body, a trimmed newline-free
timestamp string and zero or more well-formed absolute attachment
storage paths — body, timestamp and paths free of carriage returns and
of the non-newline line-boundary characters — then decoding the stored
file the way the program reads it (universal-newline translation,
splitlines, strip), recovers the sender, recipient and timestamp in the
header, the exact body, and exactly the attachment paths in order. -/
theorem envelope_roundtrip (parentDir sender recipient message sent_at : String)
    (attachment_paths : List String)
    (hsender : CanonicalAgent sender) (hrecipient : CanonicalAgent recipient)
    (hts : HeaderValueOk sent_at) (htsC : NlOnly sent_at)
    (hmsg1 : pyStrip message = message) (_hmsg2 : message ≠ "") (hmsgC : NlOnly message)
    (hpaths : ∀ p ∈ attachment_paths, PathOk p)
    (hpathsC : ∀ p ∈ attachment_paths, NlOnly p) :
    _parse_stored parentDir
        (envelopeContent sender recipient message sent_at attachment_paths) =
      some ([("from", sender), ("to", recipient), ("sent_at", sent_at)], message,
        attachment_paths) := by
  obtain ⟨hsne, hschars⟩ := hsender
  obtain ⟨hrne, hrchars⟩ := hrecipient
  obtain ⟨hsvne, hsvtrim, hsvnl⟩ := canonical_headerValueOk ⟨hsne, hschars⟩
  obtain ⟨hrvne, hrvtrim, hrvnl⟩ := canonical_headerValueOk ⟨hrne, hrchars⟩
  obtain ⟨htne, httrim, htnl⟩ := hts
  have hBnl : ∀ l ∈ (breakLines message.data).map String.mk, '\n' ∉ l.data := by
    intro l hl
    obtain ⟨d, hd, hdl⟩ := List.mem_map.mp hl
    rw [← hdl]
    exact breakLines_no_nl _ d hd
  -- the generated file, line by line
  have hcontent : envelopeContent sender recipient message sent_at attachment_paths
      = pyJoinNl (headerMark ::
          ((("from: " ++ sender) :: ("to: " ++ recipient) :: ("sent_at: " ++ sent_at)
              :: "" :: ((breakLines message.data).map String.mk ++ [""]))
            ++ footerMark :: footerTailOf sender recipient attachment_paths)) ++ "\n" := by
    unfold envelopeContent footerTailOf pyJoinNl
    rw [hmsg1]
    refine congrArg (fun d => String.mk d ++ "\n") ?_
    simp only [List.map_cons, List.map_append, List.cons_append, List.append_assoc,
      List.map_map, show String.data ∘ String.mk = id from rfl, List.map_id]
    exact (joinNlData_splice5 _ _ _ _ _ _ _).symm
  have hclean : NlOnly (envelopeContent sender recipient message sent_at attachment_paths) := by
    rw [hcontent]
    intro ch hch
    rw [String.data_append] at hch
    rcases List.mem_append.mp hch with hm | hm
    · have hdata : (pyJoinNl (headerMark ::
          ((("from: " ++ sender) :: ("to: " ++ recipient) :: ("sent_at: " ++ sent_at)
              :: "" :: ((breakLines message.data).map String.mk ++ [""]))
            ++ footerMark :: footerTailOf sender recipient attachment_paths))).data
          = joinNlData ((headerMark ::
          ((("from: " ++ sender) :: ("to: " ++ recipient) :: ("sent_at: " ++ sent_at)
              :: "" :: ((breakLines message.data).map String.mk ++ [""]))
            ++ footerMark :: footerTailOf sender recipient attachment_paths)).map
              String.data) := rfl
      rw [hdata] at hm
      rcases mem_joinNlData ch _ hm with rfl | ⟨ld, hld, hcl⟩
      · exact ⟨by decide, fun _ => rfl⟩
      obtain ⟨lstr, hlstr, hldeq⟩ := List.mem_map.mp hld
      rw [← hldeq] at hcl
      rcases List.mem_cons.mp hlstr with rfl | hlstr
      · exact (by decide : ∀ c ∈ (headerMark : String).data,
          c ≠ '\r' ∧ (lineBoundaryChar c = true → c = '\n')) ch hcl
      rcases List.mem_append.mp hlstr with hl | hl
      · rcases List.mem_cons.mp hl with rfl | hl
        · rw [String.data_append] at hcl
          rcases List.mem_append.mp hcl with hm2 | hm2
          · exact (by decide : ∀ c ∈ ("from: " : String).data,
              c ≠ '\r' ∧ (lineBoundaryChar c = true → c = '\n')) ch hm2
          · exact asciiCanon_clean (hschars ch hm2)
        rcases List.mem_cons.mp hl with rfl | hl
        · rw [String.data_append] at hcl
          rcases List.mem_append.mp hcl with hm2 | hm2
          · exact (by decide : ∀ c ∈ ("to: " : String).data,
              c ≠ '\r' ∧ (lineBoundaryChar c = true → c = '\n')) ch hm2
          · exact asciiCanon_clean (hrchars ch hm2)
        rcases List.mem_cons.mp hl with rfl | hl
        · rw [String.data_append] at hcl
          rcases List.mem_append.mp hcl with hm2 | hm2
          · exact (by decide : ∀ c ∈ ("sent_at: " : String).data,
              c ≠ '\r' ∧ (lineBoundaryChar c = true → c = '\n')) ch hm2
          · exact htsC ch hm2
        rcases List.mem_cons.mp hl with rfl | hl
        · exact absurd hcl (by simp)
        rcases List.mem_append.mp hl with hl2 | hl2
        · obtain ⟨d, hd, rfl⟩ := List.mem_map.mp hl2
          exact hmsgC ch (breakLines_mem_subset message.data d hd ch hcl)
        · rcases List.mem_singleton.mp hl2 with rfl
          exact absurd hcl (by simp)
      · rcases List.mem_cons.mp hl with rfl | hl
        · exact (by decide : ∀ c ∈ (footerMark : String).data,
            c ≠ '\r' ∧ (lineBoundaryChar c = true → c = '\n')) ch hcl
        unfold footerTailOf at hl
        split at hl
        · rcases List.mem_singleton.mp hl with rfl
          rw [String.data_append, String.data_append, String.data_append] at hcl
          rcases List.mem_append.mp hcl with hm2 | hm2
          · rcases List.mem_append.mp hm2 with hm3 | hm3
            · rcases List.mem_append.mp hm3 with hm4 | hm4
              · exact (by decide : ∀ c ∈ ("reply_url: /messages?from=" : String).data,
                  c ≠ '\r' ∧ (lineBoundaryChar c = true → c = '\n')) ch hm4
              · exact asciiCanon_clean (hrchars ch hm4)
            · exact (by decide : ∀ c ∈ ("&to=" : String).data,
                c ≠ '\r' ∧ (lineBoundaryChar c = true → c = '\n')) ch hm3
          · exact asciiCanon_clean (hschars ch hm2)
        · rcases List.mem_cons.mp hl with rfl | hl
          · exact (by decide : ∀ c ∈ ("attachments:" : String).data,
              c ≠ '\r' ∧ (lineBoundaryChar c = true → c = '\n')) ch hcl
          obtain ⟨p, hp, rfl⟩ := List.mem_map.mp hl
          rw [String.data_append] at hcl
          rcases List.mem_append.mp hcl with hm2 | hm2
          · exact (by decide : ∀ c ∈ ("- " : String).data,
              c ≠ '\r' ∧ (lineBoundaryChar c = true → c = '\n')) ch hm2
          · exact hpathsC p hp ch hm2
    · rcases List.mem_singleton.mp hm with rfl
      exact ⟨by decide, fun _ => rfl⟩
  rw [parse_stored_eq parentDir _ hclean]
  rw [hcontent]
  have hfnonl : ∀ l ∈ ("from: " ++ sender) :: ("to: " ++ recipient)
      :: ("sent_at: " ++ sent_at) :: "" ::
      ((breakLines message.data).map String.mk ++ [""]), '\n' ∉ l.data := by
    intro l hl
    rcases List.mem_cons.mp hl with rfl | hl
    · rw [String.data_append]
      intro hmem
      rcases List.mem_append.mp hmem with hm | hm
      · revert hm; decide
      · exact hsvnl hm
    rcases List.mem_cons.mp hl with rfl | hl
    · rw [String.data_append]
      intro hmem
      rcases List.mem_append.mp hmem with hm | hm
      · revert hm; decide
      · exact hrvnl hm
    rcases List.mem_cons.mp hl with rfl | hl
    · rw [String.data_append]
      intro hmem
      rcases List.mem_append.mp hmem with hm | hm
      · revert hm; decide
      · exact htnl hm
    rcases List.mem_cons.mp hl with rfl | hl
    · simp
    rcases List.mem_append.mp hl with hm | hm
    · exact hBnl l hm
    · rcases List.mem_singleton.mp hm with rfl
      simp
  have htailnl : ∀ l ∈ footerTailOf sender recipient attachment_paths, '\n' ∉ l.data := by
    intro l hl
    unfold footerTailOf at hl
    split at hl
    · rcases List.mem_singleton.mp hl with rfl
      rw [String.data_append, String.data_append, String.data_append]
      intro hmem
      rcases List.mem_append.mp hmem with hm | hm
      · rcases List.mem_append.mp hm with hm2 | hm2
        · rcases List.mem_append.mp hm2 with hm3 | hm3
          · revert hm3; decide
          · exact hrvnl hm3
        · revert hm2; decide
      · exact hsvnl hm
    · rcases List.mem_cons.mp hl with rfl | hl
      · decide
      obtain ⟨p, hp, hpl⟩ := List.mem_map.mp hl
      rw [← hpl, String.data_append]
      intro hmem
      rcases List.mem_append.mp hmem with hm | hm
      · revert hm; decide
      · exact (hpaths p hp).1 hm
  have htailfm : footerMark ∉ footerTailOf sender recipient attachment_paths := by
    unfold footerTailOf
    split
    · intro hmem
      have heq := List.mem_singleton.mp hmem
      have hh : ("reply_url: /messages?from=" ++ recipient ++ "&to=" ++ sender).data.head?
          = some 'r' :=
        head?_data_append_lit ("reply_url: /messages?from=" ++ recipient ++ "&to=")
          (head?_data_append_lit ("reply_url: /messages?from=" ++ recipient)
            (head?_data_append_lit "reply_url: /messages?from=" rfl recipient) "&to=") sender
      rw [← heq] at hh
      exact absurd hh (by decide)
    · intro hmem
      rcases List.mem_cons.mp hmem with heq | hmem2
      · revert heq; decide
      obtain ⟨p, -, hpl⟩ := List.mem_map.mp hmem2
      have hh : (("- " ++ p)).data.head? = some '-' :=
        head?_data_append_lit "- " rfl p
      rw [hpl] at hh
      revert hh
      decide
  rw [parse_last_footer_core parentDir _ _ hfnonl htailnl htailfm]
  -- header lines strip to themselves
  have hlinef : pyStrip ("from" ++ ": " ++ sender) = "from" ++ ": " ++ sender :=
    pyStrip_append_self ("from" ++ ": ") sender (by decide)
      (by intro c hc; injection hc with hc; rw [← hc]; rfl) hsvne hsvtrim
  have hlinet : pyStrip ("to" ++ ": " ++ recipient) = "to" ++ ": " ++ recipient :=
    pyStrip_append_self ("to" ++ ": ") recipient (by decide)
      (by intro c hc; injection hc with hc; rw [← hc]; rfl) hrvne hrvtrim
  have hlines : pyStrip ("sent_at" ++ ": " ++ sent_at) = "sent_at" ++ ": " ++ sent_at :=
    pyStrip_append_self ("sent_at" ++ ": ") sent_at (by decide)
      (by intro c hc; injection hc with hc; rw [← hc]; rfl) htne httrim
  have hne1 : ¬ pyStrip ("from: " ++ sender) = "" := by
    rw [show ("from: " ++ sender) = "from" ++ ": " ++ sender from by rfl, hlinef]
    intro he
    have := congrArg String.data he
    rw [String.data_append, String.data_append] at this
    simp at this
  have hne2 : ¬ pyStrip ("to: " ++ recipient) = "" := by
    rw [show ("to: " ++ recipient) = "to" ++ ": " ++ recipient from by rfl, hlinet]
    intro he
    have := congrArg String.data he
    rw [String.data_append, String.data_append] at this
    simp at this
  have hne3 : ¬ pyStrip ("sent_at: " ++ sent_at) = "" := by
    rw [show ("sent_at: " ++ sent_at) = "sent_at" ++ ": " ++ sent_at from by rfl, hlines]
    intro he
    have := congrArg String.data he
    rw [String.data_append, String.data_append] at this
    simp at this
  have hidx := findIdx_blank_three ("from: " ++ sender) ("to: " ++ recipient)
    ("sent_at: " ++ sent_at) ((breakLines message.data).map String.mk ++ [""])
    hne1 hne2 hne3
  have hhdr : headerOfLines (("from: " ++ sender) :: ("to: " ++ recipient)
      :: ("sent_at: " ++ sent_at) :: "" ::
      ((breakLines message.data).map String.mk ++ [""]))
      = [("from", sender), ("to", recipient), ("sent_at", sent_at)] := by
    unfold headerOfLines
    rw [hidx]
    show ([("from: " ++ sender), ("to: " ++ recipient),
      ("sent_at: " ++ sent_at)].filterMap headerEntry) = _
    rw [List.filterMap_cons, List.filterMap_cons, List.filterMap_cons]
    rw [show ("from: " ++ sender) = "from" ++ ": " ++ sender from by rfl,
      show ("to: " ++ recipient) = "to" ++ ": " ++ recipient from by rfl,
      show ("sent_at: " ++ sent_at) = "sent_at" ++ ": " ++ sent_at from by rfl]
    rw [headerEntry_keyval "from" sender (by decide) (by rfl) hlinef hsvtrim,
      headerEntry_keyval "to" recipient (by decide) (by rfl) hlinet hrvtrim,
      headerEntry_keyval "sent_at" sent_at (by decide) (by rfl) hlines httrim]
    rfl
  have hbody : bodyOfLines (("from: " ++ sender) :: ("to: " ++ recipient)
      :: ("sent_at: " ++ sent_at) :: "" ::
      ((breakLines message.data).map String.mk ++ [""])) = message := by
    unfold bodyOfLines
    rw [hidx]
    show pyStrip (pyJoinNl ((breakLines message.data).map String.mk ++ [""])) = message
    unfold pyJoinNl
    rw [List.map_append, List.map_map,
      show String.data ∘ String.mk = id from rfl, List.map_id]
    rw [show ([""] : List String).map String.data = [[]] from rfl,
      joinNlData_append_empty _ (breakLines_ne_nil _), joinNlData_breakLines]
    unfold pyStrip
    rw [show (String.mk (message.data ++ ['\n'])).data = message.data ++ ['\n'] from rfl]
    rw [pyStripData_append_ws (by intro c hcm; rcases List.mem_singleton.mp hcm with rfl; rfl)]
    rw [show pyStripData message.data = message.data from congrArg String.data hmsg1,
      mk_data]
  have hatts : (footerTailOf sender recipient attachment_paths).filterMap
      (attachmentOfLine parentDir) = attachment_paths := by
    unfold footerTailOf
    split
    next hemp =>
      rw [List.isEmpty_iff] at hemp
      rw [hemp]
      have hnone : attachmentOfLine parentDir
          ("reply_url: /messages?from=" ++ recipient ++ "&to=" ++ sender) = none :=
        attachmentOfLine_none_of_head parentDir
          (head?_data_append_lit ("reply_url: /messages?from=" ++ recipient ++ "&to=")
            (head?_data_append_lit ("reply_url: /messages?from=" ++ recipient)
              (head?_data_append_lit "reply_url: /messages?from=" rfl recipient) "&to=") sender)
          (by decide) (by decide)
      simp [List.filterMap_cons, hnone]
    · rw [List.filterMap_cons]
      rw [show attachmentOfLine parentDir "attachments:" = none from by
        unfold attachmentOfLine
        rw [if_neg (by decide)]]
      exact filterMap_attachment_dash parentDir attachment_paths hpaths
  rw [hhdr, hbody, hatts]

/-- C1 counterexample: in a file whose body region contains a footer-
marker line, the decoder keeps the lines after that first marker as body
text (it cuts at the last marker), so body capture does not stop at the
first footer marker. -/
theorem parse_first_footer_counterexample :
    _parse_message_file "/messages/paul/inbox"
        (pyJoinNl ["=== HEADER ===", "from: a", "", "hello", "=== FOOTER ===",
          "world", "", "=== FOOTER ===", "- /a.txt"] ++ "\n") =
      some ([("from", "a")], "hello\n=== FOOTER ===\nworld", ["/a.txt"]) ∧
    ("hello\n=== FOOTER ===\nworld" : String) ≠ "hello" ∧
    "world" ∈ readLines "hello\n=== FOOTER ===\nworld" := by
  refine ⟨by rfl, by decide, by decide⟩

/-- C1 witness: the last-footer theorem applied to a concrete file whose
mid section contains both a footer-marker line and an attachment-shaped
line. -/
theorem parse_stops_at_last_footer_witness :
    _parse_message_file "/inbox"
        (pyJoinNl (headerMark :: (["from: a", "", "body", footerMark, "- /x.txt"]
          ++ footerMark :: ["- /b.txt"])) ++ "\n") =
      some (headerOfLines ["from: a", "", "body", footerMark, "- /x.txt"],
        bodyOfLines ["from: a", "", "body", footerMark, "- /x.txt"],
        (["- /b.txt"] : List String).filterMap (attachmentOfLine "/inbox")) :=
  parse_stops_at_last_footer "/inbox" ["from: a", "", "body", footerMark, "- /x.txt"]
    ["- /b.txt"] (by decide) (by decide) (by decide)

/-- C2 counterexample: two strip-admissible bodies do not round-trip:
a body holding a CR-LF pair decodes with it collapsed to a newline
(read_text's universal-newline translation), and a body with trailing
whitespace decodes trimmed. -/
theorem envelope_roundtrip_counterexample :
    pyStrip "a\r\nb" = "a\r\nb" ∧
    _parse_stored "/messages/alice/inbox"
        (envelopeContent "bob" "alice" "a\r\nb" "t" []) =
      some ([("from", "bob"), ("to", "alice"), ("sent_at", "t")], "a\nb", []) ∧
    ("a\nb" : String) ≠ "a\r\nb" ∧
    _parse_stored "/inbox" (envelopeContent "a" "b" "hi\n" "t" []) =
      some ([("from", "a"), ("to", "b"), ("sent_at", "t")], "hi", []) ∧
    ("hi" : String) ≠ "hi\n" := by
  refine ⟨by decide, by rfl, by decide, by rfl, by decide⟩

/-- C2 witness: the round-trip theorem applied to a concrete envelope
with a multi-line body and one attachment. -/
theorem envelope_roundtrip_witness :
    _parse_stored "/messages/bob/inbox"
        (envelopeContent "alice" "bob" "hi\nthere" "2026-02-13T02:15:26+00:00"
          ["/messages/bob/inbox/u-attachment1.txt"]) =
      some ([("from", "alice"), ("to", "bob"), ("sent_at", "2026-02-13T02:15:26+00:00")],
        "hi\nthere", ["/messages/bob/inbox/u-attachment1.txt"]) :=
  envelope_roundtrip "/messages/bob/inbox" "alice" "bob" "hi\nthere"
    "2026-02-13T02:15:26+00:00" ["/messages/bob/inbox/u-attachment1.txt"]
    ⟨by decide, by decide⟩ ⟨by decide, by decide⟩ ⟨by decide, by rfl, by decide⟩
    (by decide)
    (by rfl) (by decide) (by decide)
    (by
      intro p hp
      rcases List.mem_singleton.mp hp with rfl
      exact ⟨by decide, by rfl, by rfl⟩)
    (by
      intro p hp
      rcases List.mem_singleton.mp hp with rfl
      decide)

end Openack

namespace Openack

/-! ## C4: validation failures perform no writes -/

theorem sanitizeAll_ok_mem {rs cs} (h : sanitizeAll rs = .ok cs) :
    ∀ r ∈ rs, ∃ c, sanitize_agent_name r = .ok c ∧ c ∈ cs := by
  induction rs generalizing cs with
  | nil => intro r hr; cases hr
  | cons r0 rest ih =>
    intro r hr
    unfold sanitizeAll at h
    cases h0 : sanitize_agent_name r0 with
    | error e => rw [h0] at h; cases h
    | ok c0 =>
      rw [h0] at h
      simp only at h
      cases hrest : sanitizeAll rest with
      | error e => rw [hrest] at h; cases h
      | ok cs0 =>
        rw [hrest] at h
        simp only at h
        injection h with h
        subst h
        rcases List.mem_cons.mp hr with rfl | hmem
        · exact ⟨c0, h0, List.mem_cons_self _ _⟩
        · obtain ⟨c, hc1, hc2⟩ := ih hrest r hmem
          exact ⟨c, hc1, List.mem_cons_of_mem _ hc2⟩

/-- C4: an enqueue call that fails validation (invalid or unknown sender
or recipient, or blank body) returns an error and leaves the store state
(files, directories and transaction log) unchanged. -/
theorem handle_send_message_pure_on_validation_failure
    (people : List String) (root : String) (uuidGen : Nat → String)
    (sender : String) (recipients : List String) (message : String)
    (files : List (String × String)) (sent_at : String) (s : FS)
    (h : EnqueueValidationFails people sender recipients message) :
    (handle_send_message people root uuidGen sender recipients message files sent_at s).2 = s ∧
    ∃ e, (handle_send_message people root uuidGen sender recipients message
      files sent_at s).1 = .error e := by
  unfold handle_send_message
  cases hs : sanitize_agent_name sender with
  | error e => exact ⟨rfl, e, rfl⟩
  | ok clean_sender =>
    simp only
    cases hr : sanitizeAll recipients with
    | error e => exact ⟨rfl, e, rfl⟩
    | ok clean_recipients =>
      simp only
      by_cases hc1 : people.contains clean_sender
      · rw [if_neg (by rw [hc1]; simp)]
        by_cases hc2 : clean_recipients.isEmpty = true
        · rw [if_pos hc2]
          exact ⟨rfl, _, rfl⟩
        · rw [if_neg hc2]
          by_cases hc3 : (clean_recipients.filter (fun q => !(people.contains q))).isEmpty = true
          · rw [if_neg (by rw [hc3]; simp)]
            by_cases hc4 : pyStrip message = ""
            · rw [if_pos hc4]
              exact ⟨rfl, _, rfl⟩
            · exfalso
              rcases h with ⟨e, he⟩ | ⟨r, hrm, e, he⟩ | ⟨cs, hok, hcont⟩ | ⟨r, hrm, cr, hok, hcont⟩ | hblank
              · rw [hs] at he; cases he
              · obtain ⟨c, hc, _⟩ := sanitizeAll_ok_mem hr r hrm
                rw [hc] at he; cases he
              · rw [hs] at hok
                injection hok with hok
                subst hok
                rw [hcont] at hc1
                cases hc1
              · obtain ⟨c, hc, hmem⟩ := sanitizeAll_ok_mem hr r hrm
                rw [hok] at hc
                injection hc with hc
                subst hc
                have : cr ∈ clean_recipients.filter (fun q => !(people.contains q)) :=
                  List.mem_filter.mpr ⟨hmem, by rw [hcont]; rfl⟩
                rw [List.isEmpty_iff] at hc3
                rw [hc3] at this
                cases this
              · exact hc4 hblank
          · rw [if_pos (by
              cases hfe : (clean_recipients.filter (fun q => !(people.contains q))).isEmpty
              · rfl
              · exact absurd hfe hc3)]
            exact ⟨rfl, _, rfl⟩
      · rw [if_pos (by
          cases hce : people.contains clean_sender
          · rfl
          · exact absurd hce hc1)]
        exact ⟨rfl, _, rfl⟩

/-- C4 witness: the theorem applied to a concrete invalid-sender call. -/
theorem handle_send_message_pure_on_validation_failure_witness :
    (handle_send_message ["a"] "/messages" (fun _ => "u") "a!b" ["a"] "hi" [] "t"
      ⟨[], [], []⟩).2 = ⟨[], [], []⟩ ∧
    ∃ e, (handle_send_message ["a"] "/messages" (fun _ => "u") "a!b" ["a"] "hi" [] "t"
      ⟨[], [], []⟩).1 = .error e :=
  handle_send_message_pure_on_validation_failure ["a"] "/messages" (fun _ => "u")
    "a!b" ["a"] "hi" [] "t" ⟨[], [], []⟩ (Or.inl ⟨"Invalid agent name: a!b", by rfl⟩)

/-! ## Filesystem operation lemmas -/

theorem find?_filter_ne (l : List (String × FsFile)) (p q : String) (h : q ≠ p) :
    (l.filter (fun e => !(e.1 = p))).find? (fun e => e.1 = q)
      = l.find? (fun e => e.1 = q) := by
  induction l with
  | nil => rfl
  | cons e es ih =>
    by_cases hep : e.1 = p
    · rw [List.filter_cons, if_neg (by simp [hep]), ih, List.find?_cons,
        decide_eq_false (fun (he : e.1 = q) => h (he ▸ hep))]
    · rw [List.filter_cons, if_pos (by simp [hep]), List.find?_cons, List.find?_cons]
      cases hdq : decide (e.1 = q) with
      | true => rfl
      | false => exact ih

theorem find?_filter_self (l : List (String × FsFile)) (p : String) :
    (l.filter (fun e => !(e.1 = p))).find? (fun e => e.1 = p) = none := by
  rw [List.find?_eq_none]
  intro e he
  have := (List.mem_filter.mp he).2
  simp at this ⊢
  exact this

theorem FS.lookup_mkdir (s : FS) (d p : String) : (s.mkdir d).lookup p = s.lookup p := rfl

theorem FS.lookup_appendLog (s : FS) (line p : String) :
    (s.appendLog line).lookup p = s.lookup p := rfl

theorem FS.lookup_writeFile_self (s : FS) (p : String) (f : FsFile) :
    (s.writeFile p f).lookup p = some f := by
  unfold FS.writeFile FS.lookup
  rw [List.find?_append, find?_filter_self]
  simp [List.find?]

theorem FS.lookup_writeFile_ne (s : FS) (p q : String) (f : FsFile) (h : q ≠ p) :
    (s.writeFile p f).lookup q = s.lookup q := by
  unfold FS.writeFile FS.lookup
  rw [List.find?_append, find?_filter_ne _ _ _ h]
  cases hf : s.files.find? (fun e => e.1 = q) with
  | some e => rfl
  | none =>
    show (([(p, f)].find? (fun e => e.1 = q)).map Prod.snd) = none
    rw [List.find?_cons, decide_eq_false (fun (he : (p, f).1 = q) => h he.symm)]
    rfl

theorem FS.lookup_deleteFile (s : FS) (p q : String) :
    (s.deleteFile p).lookup q = if q = p then none else s.lookup q := by
  unfold FS.deleteFile FS.lookup
  split
  next h =>
    rw [h, find?_filter_self]
    rfl
  next h =>
    rw [find?_filter_ne _ _ _ h]

theorem lookup_foldl_delete (l : List String) (s : FS) (x : String) :
    (l.foldl (fun st a => if (st.lookup a).isSome then st.deleteFile a else st) s).lookup x
      = if x ∈ l then none else s.lookup x := by
  induction l generalizing s with
  | nil => simp
  | cons a rest ih =>
    rw [List.foldl_cons, ih]
    have hstep : ((if (s.lookup a).isSome then s.deleteFile a else s)).lookup x
        = if x = a then none else s.lookup x := by
      by_cases hxa : x = a
      · subst hxa
        rw [if_pos rfl]
        by_cases hsome : (s.lookup x).isSome = true
        · rw [if_pos hsome, FS.lookup_deleteFile, if_pos rfl]
        · rw [if_neg hsome]
          cases hs : s.lookup x with
          | some f => rw [hs] at hsome; simp at hsome
          | none => rfl
      · rw [if_neg hxa]
        by_cases hsome : (s.lookup a).isSome = true
        · rw [if_pos hsome, FS.lookup_deleteFile, if_neg hxa]
        · rw [if_neg hsome]
    rw [hstep]
    by_cases hxr : x ∈ rest
    · rw [if_pos hxr, if_pos (List.mem_cons_of_mem a hxr)]
    · rw [if_neg hxr]
      by_cases hxa : x = a
      · have h1 : (if x = a then (none : Option FsFile) else s.lookup x) = none := if_pos hxa
        have h2 : (if x ∈ a :: rest then (none : Option FsFile) else s.lookup x) = none :=
          if_pos (by rw [hxa]; exact List.mem_cons_self a rest)
        rw [h1, h2]
      · have h1 : (if x = a then (none : Option FsFile) else s.lookup x) = s.lookup x :=
          if_neg hxa
        have h2 : (if x ∈ a :: rest then (none : Option FsFile) else s.lookup x)
            = s.lookup x := if_neg (fun hm => (List.mem_cons.mp hm).elim hxa hxr)
        rw [h1, h2]

/-- What each path maps to after archiving one envelope: the envelope
file and every listed attachment are gone, the zip path holds the
archive, everything else is untouched. -/
theorem archive_lookup (s : FS) (p : String) (atts : List String) (x : String) :
    (_archive_processed_message s p atts).lookup x =
      if x ∈ atts then none
      else if x = p then none
      else if x = zipPathOf p then some (.zip (archiveMembers s p atts))
      else s.lookup x := by
  unfold _archive_processed_message
  rw [lookup_foldl_delete]
  by_cases hxa : x ∈ atts
  · rw [if_pos hxa, if_pos hxa]
  rw [if_neg hxa, if_neg hxa]
  have hmem : archiveMembers (s.mkdir (doneDirOf p)) p atts = archiveMembers s p atts := rfl
  by_cases hxp : x = p
  · rw [if_pos hxp]
    split
    · rw [FS.lookup_deleteFile, if_pos hxp]
    next hnone =>
      rw [hxp]
      exact Option.not_isSome_iff_eq_none.mp hnone
  · rw [if_neg hxp]
    have hstep : ∀ s2 : FS,
        ((if (s2.lookup p).isSome then s2.deleteFile p else s2)).lookup x = s2.lookup x := by
      intro s2
      split
      · rw [FS.lookup_deleteFile, if_neg hxp]
      · rfl
    rw [hstep]
    by_cases hxz : x = zipPathOf p
    · subst hxz
      rw [if_pos rfl, FS.lookup_writeFile_self]
      rw [hmem]
    · rw [if_neg hxz, FS.lookup_writeFile_ne _ _ _ _ hxz, FS.lookup_mkdir]

theorem not_mem_keys_of_lookup_none {s : FS} {p : String} (h : s.lookup p = none) :
    p ∉ s.files.map Prod.fst := by
  intro hmem
  obtain ⟨e, he, hfst⟩ := List.mem_map.mp hmem
  unfold FS.lookup at h
  have hf := List.find?_eq_none.mp (Option.map_eq_none.mp h) e he
  simp [hfst] at hf

theorem not_mem_sortedMd_of_lookup_none {s : FS} {p dir : String}
    (h : s.lookup p = none) : p ∉ s.sortedMdFiles dir := by
  intro hmem
  have hperm := List.perm_insertionSort pathOrder (s.mdFiles dir)
  have hmem2 : p ∈ s.mdFiles dir := hperm.mem_iff.mp hmem
  unfold FS.mdFiles at hmem2
  exact not_mem_keys_of_lookup_none h (List.mem_filter.mp hmem2).1

end Openack

namespace Openack

/-! ## C6: a malformed envelope aborts the scan -/

/-- C6 (amended): a malformed envelope file encountered by the dequeue
scan aborts the whole call with the malformed-envelope error instead of
being skipped: when the malformed file is first in scan order, the call
fails and the store is left exactly as it was, so the remaining
well-formed envelopes are neither returned nor archived. -/
theorem fetch_aborts_on_malformed (idMap : List (String × String))
    (root agent_id mapped : String) (s : FS) (bad : String) (rest : List String) (c : String)
    (hres : dictGet idMap (pyStrip agent_id) = some mapped)
    (hm : mapped ≠ "")
    (hdir : s.dirExists (root ++ "/" ++ mapped ++ "/inbox") = true)
    (hscan : s.sortedMdFiles (root ++ "/" ++ mapped ++ "/inbox") = bad :: rest)
    (hfile : s.lookup bad = some (.file c))
    (hbad : _parse_message_file (dirName bad) c = none) :
    fetch_messages_by_id idMap root agent_id s =
      (.error ("Malformed message file: " ++ bad), s) := by
  unfold fetch_messages_by_id
  rw [hres]
  simp only
  rw [if_neg hm, if_pos hdir, hscan]
  simp only [fetchLoop, hfile, hbad]

/-- C6 counterexample: an inbox holding a malformed envelope followed by
a well-formed one; the dequeue call fails with the malformed-envelope
error and leaves the store untouched, so the well-formed envelope is not
decoded, returned or archived even though it parses fine. -/
theorem fetch_malformed_counterexample :
    fetch_messages_by_id [("tok", "paul")] "/messages" "tok"
        ⟨[("/messages/paul/inbox/a.md", FsFile.file "junk"),
          ("/messages/paul/inbox/b.md", FsFile.file
            "=== HEADER ===\nfrom: x\nto: paul\nsent_at: t\n\nhi\n\n=== FOOTER ===\nreply_url: /messages?from=paul&to=x\n")],
         ["/messages/paul/inbox"], []⟩ =
      (.error "Malformed message file: /messages/paul/inbox/a.md",
        ⟨[("/messages/paul/inbox/a.md", FsFile.file "junk"),
          ("/messages/paul/inbox/b.md", FsFile.file
            "=== HEADER ===\nfrom: x\nto: paul\nsent_at: t\n\nhi\n\n=== FOOTER ===\nreply_url: /messages?from=paul&to=x\n")],
         ["/messages/paul/inbox"], []⟩) ∧
    (_parse_message_file "/messages/paul/inbox"
      "=== HEADER ===\nfrom: x\nto: paul\nsent_at: t\n\nhi\n\n=== FOOTER ===\nreply_url: /messages?from=paul&to=x\n").isSome
      = true := by
  refine ⟨by rfl, by rfl⟩

/-- C6 witness: the abort theorem applied to the concrete two-envelope
inbox. -/
theorem fetch_aborts_on_malformed_witness :
    fetch_messages_by_id [("tok", "paul")] "/messages" "tok"
        ⟨[("/messages/paul/inbox/a.md", FsFile.file "junk"),
          ("/messages/paul/inbox/b.md", FsFile.file "junk2")],
         ["/messages/paul/inbox"], []⟩ =
      (.error "Malformed message file: /messages/paul/inbox/a.md",
        ⟨[("/messages/paul/inbox/a.md", FsFile.file "junk"),
          ("/messages/paul/inbox/b.md", FsFile.file "junk2")],
         ["/messages/paul/inbox"], []⟩) :=
  fetch_aborts_on_malformed [("tok", "paul")] "/messages" "tok" "paul"
    ⟨[("/messages/paul/inbox/a.md", FsFile.file "junk"),
      ("/messages/paul/inbox/b.md", FsFile.file "junk2")],
     ["/messages/paul/inbox"], []⟩
    "/messages/paul/inbox/a.md" ["/messages/paul/inbox/b.md"] "junk"
    (by rfl) (by decide) (by rfl) (by rfl) (by rfl) (by rfl)

/-! ## C9: missing attachments are skipped -/

theorem filterMap_skip_missing {β : Type} (f : String → Option β) (a : String)
    (hf : f a = none) (l : List String) :
    l.filterMap f = (l.filter (fun q => !(q = a))).filterMap f := by
  induction l with
  | nil => rfl
  | cons q qs ih =>
    by_cases hq : q = a
    · rw [List.filter_cons, if_neg (by simp [hq]), List.filterMap_cons, hq, hf, ih]
    · rw [List.filter_cons, if_pos (by simp [hq]), List.filterMap_cons, List.filterMap_cons, ih]

/-- C9: an envelope whose footer references a path with no file on disk
is still decoded, returned and archived; the missing path contributes
nothing to the returned attachments or to the archive zip (both equal
what the remaining, existing references produce), and the envelope file
is consumed. -/
theorem fetch_missing_attachment_ok
    (idMap : List (String × String)) (root agent_id mapped p c a : String) (s : FS)
    (hdr : List (String × String)) (text : String) (atts : List String)
    (hres : dictGet idMap (pyStrip agent_id) = some mapped)
    (hm : mapped ≠ "")
    (hdir : s.dirExists (root ++ "/" ++ mapped ++ "/inbox") = true)
    (hscan : s.sortedMdFiles (root ++ "/" ++ mapped ++ "/inbox") = [p])
    (hfile : s.lookup p = some (.file c))
    (hparse : _parse_message_file (dirName p) c = some (hdr, text, atts))
    (_hmem : a ∈ atts) (hmiss : s.lookup a = none)
    (hzp : zipPathOf p ≠ p) (hza : zipPathOf p ∉ atts) :
    fetch_messages_by_id idMap root agent_id s =
      (.ok [{ fromAgent := (dictGet hdr "from").getD ""
              toAgent := (dictGet hdr "to").getD mapped
              sent_at := (dictGet hdr "sent_at").getD ""
              message := text
              attachments := msgAttachments s atts }],
        _archive_processed_message s p atts) ∧
    msgAttachments s atts = msgAttachments s (atts.filter (fun q => !(q = a))) ∧
    archiveMembers s p atts = archiveMembers s p (atts.filter (fun q => !(q = a))) ∧
    (_archive_processed_message s p atts).lookup (zipPathOf p)
      = some (.zip (archiveMembers s p atts)) ∧
    (_archive_processed_message s p atts).lookup p = none := by
  refine ⟨?_, ?_, ?_, ?_, ?_⟩
  · unfold fetch_messages_by_id
    rw [hres]
    simp only
    rw [if_neg hm, if_pos hdir, hscan]
    simp only [fetchLoop, hfile, hparse]
  · unfold msgAttachments
    exact filterMap_skip_missing _ a (by rw [hmiss]) atts
  · unfold archiveMembers
    rw [← filterMap_skip_missing (fun q => (s.lookup q).map (fun f => (baseName q, f.bytes)))
      a (by show ((s.lookup a).map fun f => (baseName a, f.bytes)) = none; rw [hmiss]; rfl) atts]
  · rw [archive_lookup, if_neg hza, if_neg hzp, if_pos rfl]
  · rw [archive_lookup]
    by_cases hpa : p ∈ atts
    · rw [if_pos hpa]
    · rw [if_neg hpa, if_pos rfl]

/-- C9 witness: a concrete envelope referencing one existing and one
missing attachment. -/
theorem fetch_missing_attachment_ok_witness :
    fetch_messages_by_id [("tok", "paul")] "/messages" "tok"
        ⟨[("/messages/paul/inbox/m.md", FsFile.file
            "=== HEADER ===\nfrom: x\nto: paul\nsent_at: t\n\nhi\n\n=== FOOTER ===\nattachments:\n- /messages/paul/inbox/gone.txt\n- /messages/paul/inbox/here.txt\n"),
          ("/messages/paul/inbox/here.txt", FsFile.file "data")],
         ["/messages/paul/inbox"], []⟩ =
      (.ok [{ fromAgent := (dictGet [("from", "x"), ("to", "paul"), ("sent_at", "t")] "from").getD ""
              toAgent := (dictGet [("from", "x"), ("to", "paul"), ("sent_at", "t")] "to").getD "paul"
              sent_at := (dictGet [("from", "x"), ("to", "paul"), ("sent_at", "t")] "sent_at").getD ""
              message := "hi"
              attachments := msgAttachments
                ⟨[("/messages/paul/inbox/m.md", FsFile.file
                    "=== HEADER ===\nfrom: x\nto: paul\nsent_at: t\n\nhi\n\n=== FOOTER ===\nattachments:\n- /messages/paul/inbox/gone.txt\n- /messages/paul/inbox/here.txt\n"),
                  ("/messages/paul/inbox/here.txt", FsFile.file "data")],
                 ["/messages/paul/inbox"], []⟩
                ["/messages/paul/inbox/gone.txt", "/messages/paul/inbox/here.txt"] }],
        _archive_processed_message
          ⟨[("/messages/paul/inbox/m.md", FsFile.file
              "=== HEADER ===\nfrom: x\nto: paul\nsent_at: t\n\nhi\n\n=== FOOTER ===\nattachments:\n- /messages/paul/inbox/gone.txt\n- /messages/paul/inbox/here.txt\n"),
            ("/messages/paul/inbox/here.txt", FsFile.file "data")],
           ["/messages/paul/inbox"], []⟩
          "/messages/paul/inbox/m.md"
          ["/messages/paul/inbox/gone.txt", "/messages/paul/inbox/here.txt"]) :=
  (fetch_missing_attachment_ok [("tok", "paul")] "/messages" "tok" "paul"
    "/messages/paul/inbox/m.md"
    "=== HEADER ===\nfrom: x\nto: paul\nsent_at: t\n\nhi\n\n=== FOOTER ===\nattachments:\n- /messages/paul/inbox/gone.txt\n- /messages/paul/inbox/here.txt\n"
    "/messages/paul/inbox/gone.txt"
    ⟨[("/messages/paul/inbox/m.md", FsFile.file
        "=== HEADER ===\nfrom: x\nto: paul\nsent_at: t\n\nhi\n\n=== FOOTER ===\nattachments:\n- /messages/paul/inbox/gone.txt\n- /messages/paul/inbox/here.txt\n"),
      ("/messages/paul/inbox/here.txt", FsFile.file "data")],
     ["/messages/paul/inbox"], []⟩
    [("from", "x"), ("to", "paul"), ("sent_at", "t")] "hi"
    ["/messages/paul/inbox/gone.txt", "/messages/paul/inbox/here.txt"]
    (by rfl) (by decide) (by rfl) (by rfl) (by rfl) (by rfl)
    (by decide) (by rfl) (by decide) (by decide)).1

end Openack

namespace Openack

/-! ## C3: archive machinery — how many entries a path has -/

theorem filter_not_filter (r : (String × FsFile) → Bool) (l : List (String × FsFile)) :
    (l.filter (fun a => !(r a))).filter r = [] := by
  induction l with
  | nil => rfl
  | cons x xs ih =>
    by_cases h : r x = true
    · rw [List.filter_cons, if_neg (by simp [h]), ih]
    · rw [List.filter_cons, if_pos (by simp [h]), List.filter_cons, if_neg (by simp [h]), ih]

theorem keyCount_writeFile_self (s : FS) (p : String) (f : FsFile) :
    keyCount (s.writeFile p f) p = 1 := by
  unfold keyCount FS.writeFile
  simp only [List.filter_append]
  rw [filter_not_filter]
  simp

theorem keyCount_writeFile_ne (s : FS) (p x : String) (f : FsFile) (hxp : x ≠ p) :
    keyCount (s.writeFile p f) x = keyCount s x := by
  unfold keyCount FS.writeFile
  simp only [List.filter_append, List.length_append]
  have h1 : List.filter (fun e => e.1 = x) (List.filter (fun e => !(e.1 = p)) s.files)
      = List.filter (fun e => e.1 = x) s.files := by
    induction s.files with
    | nil => rfl
    | cons a as ih =>
      by_cases ha : a.1 = x
      · have hap : ¬(a.1 = p) := fun hc => hxp (ha ▸ hc)
        rw [List.filter_cons, if_pos (by simp [hap]), List.filter_cons, if_pos (by simp [ha]),
          List.filter_cons, if_pos (by simp [ha]), ih]
      · by_cases hap : a.1 = p
        · rw [List.filter_cons, if_neg (by simp [hap]), List.filter_cons, if_neg (by simp [ha]), ih]
        · rw [List.filter_cons, if_pos (by simp [hap]), List.filter_cons, if_neg (by simp [ha]),
            List.filter_cons, if_neg (by simp [ha]), ih]
  have h2 : List.filter (fun e => e.1 = x) [(p, f)] = [] := by
    rw [List.filter_cons, if_neg (by simp; exact fun hc => hxp hc.symm)]
    rfl
  rw [h1, h2]
  simp

theorem keyCount_deleteFile_ne (s : FS) (p x : String) (hxp : x ≠ p) :
    keyCount (s.deleteFile p) x = keyCount s x := by
  unfold keyCount FS.deleteFile
  simp only
  induction s.files with
  | nil => rfl
  | cons a as ih =>
    by_cases ha : a.1 = x
    · have hap : ¬(a.1 = p) := fun hc => hxp (ha ▸ hc)
      rw [List.filter_cons, if_pos (by simp [hap]), List.filter_cons, if_pos (by simp [ha]),
        List.filter_cons, if_pos (by simp [ha])]
      simp only [List.length_cons]
      rw [ih]
    · by_cases hap : a.1 = p
      · rw [List.filter_cons, if_neg (by simp [hap]), List.filter_cons, if_neg (by simp [ha]), ih]
      · rw [List.filter_cons, if_pos (by simp [hap]), List.filter_cons, if_neg (by simp [ha]),
          List.filter_cons, if_neg (by simp [ha]), ih]

theorem keyCount_foldl_delete (l : List String) (s : FS) (x : String) (hx : x ∉ l) :
    keyCount (l.foldl (fun st a => if (st.lookup a).isSome then st.deleteFile a else st) s) x
      = keyCount s x := by
  induction l generalizing s with
  | nil => rfl
  | cons a rest ih =>
    have hxa : x ≠ a := fun hc => hx (hc ▸ List.mem_cons_self a rest)
    have hxr : x ∉ rest := fun hc => hx (List.mem_cons_of_mem a hc)
    rw [List.foldl_cons, ih _ hxr]
    split
    · exact keyCount_deleteFile_ne _ _ _ hxa
    · rfl

/-- The zip written while archiving is the only entry under its path,
provided the zip path collides with neither the envelope file nor an
attachment. -/
theorem archive_keyCount_zip (s : FS) (p : String) (atts : List String)
    (h1 : zipPathOf p ≠ p) (h2 : zipPathOf p ∉ atts) :
    keyCount (_archive_processed_message s p atts) (zipPathOf p) = 1 := by
  unfold _archive_processed_message
  rw [keyCount_foldl_delete _ _ _ h2]
  have hstep : ∀ s2 : FS,
      keyCount (if (s2.lookup p).isSome then s2.deleteFile p else s2) (zipPathOf p)
        = keyCount s2 (zipPathOf p) := by
    intro s2
    split
    · exact keyCount_deleteFile_ne _ _ _ h1
    · rfl
  rw [hstep, keyCount_writeFile_self]

/-- Archiving does not change how many entries an unrelated path has. -/
theorem archive_keyCount_other (s : FS) (p : String) (atts : List String) (x : String)
    (hxz : x ≠ zipPathOf p) (hxp : x ≠ p) (hxa : x ∉ atts) :
    keyCount (_archive_processed_message s p atts) x = keyCount s x := by
  unfold _archive_processed_message
  rw [keyCount_foldl_delete _ _ _ hxa]
  have hstep : ∀ s2 : FS,
      keyCount (if (s2.lookup p).isSome then s2.deleteFile p else s2) x = keyCount s2 x := by
    intro s2
    split
    · exact keyCount_deleteFile_ne _ _ _ hxp
    · rfl
  rw [hstep, keyCount_writeFile_ne _ _ _ _ hxz]
  rfl

end Openack

namespace Openack

/-! ## C3: the dequeue loop consumes and archives every envelope -/

theorem parsesFile_congr (s s' : FS) (p : String) (h : FS.lookup s' p = FS.lookup s p) :
    parsesFile s' p = parsesFile s p := by
  unfold parsesFile
  rw [h]

theorem attsOf_congr (s s' : FS) (p : String) (h : FS.lookup s' p = FS.lookup s p) :
    attsOf s' p = attsOf s p := by
  unfold attsOf
  rw [h]

theorem archive_lookup_env (s : FS) (p : String) (atts : List String) :
    (_archive_processed_message s p atts).lookup p = none := by
  rw [archive_lookup]
  by_cases hpa : p ∈ atts
  · rw [if_pos hpa]
  · rw [if_neg hpa, if_pos rfl]

/-- The dequeue loop over a separated inbox: it succeeds, and afterwards
every processed envelope file and its referenced attachments are gone
while the envelope's zip path holds exactly one entry, a zip containing
the envelope bytes; paths missing before stay missing (unless they are a
zip target) and unrelated paths are untouched. -/
theorem fetchLoop_sep (mapped : String) (ps : List String) (s : FS)
    (hnd : ps.Nodup)
    (hparse : ∀ p ∈ ps, parsesFile s p = true)
    (hzq : ∀ p ∈ ps, ∀ q ∈ ps, zipPathOf p ≠ q)
    (hzz : ∀ p ∈ ps, ∀ q ∈ ps, p ≠ q → zipPathOf p ≠ zipPathOf q)
    (hatt : ∀ p ∈ ps, ∀ a ∈ attsOf s p, ∀ q ∈ ps, a ≠ q ∧ a ≠ zipPathOf q) :
    ∃ msgs s2, fetchLoop mapped ps s = (Except.ok msgs, s2) ∧
      (∀ p ∈ ps,
        FS.lookup s2 p = none ∧
        (∀ a ∈ attsOf s p, FS.lookup s2 a = none) ∧
        keyCount s2 (zipPathOf p) = 1 ∧
        (∃ members, FS.lookup s2 (zipPathOf p) = some (FsFile.zip members) ∧
          ∀ c, FS.lookup s p = some (FsFile.file c) → (baseName p, c) ∈ members)) ∧
      (∀ x, FS.lookup s x = none → (∀ p ∈ ps, x ≠ zipPathOf p) → FS.lookup s2 x = none) ∧
      (∀ x, (∀ p ∈ ps, x ≠ p ∧ x ≠ zipPathOf p ∧ x ∉ attsOf s p) →
        FS.lookup s2 x = FS.lookup s x ∧ keyCount s2 x = keyCount s x) := by
  induction ps generalizing s with
  | nil =>
    exact ⟨[], s, rfl, by simp, fun x hx _ => hx, fun x _ => ⟨rfl, rfl⟩⟩
  | cons p rest ih =>
    have hpself : p ∈ p :: rest := List.mem_cons_self p rest
    have hcons := List.nodup_cons.mp hnd
    have hpnr : p ∉ rest := hcons.1
    -- decode the head envelope
    have hp0 := hparse p hpself
    unfold parsesFile at hp0
    cases hf : FS.lookup s p with
    | none => rw [hf] at hp0; exact absurd hp0 (by simp)
    | some file =>
      cases file with
      | zip z => rw [hf] at hp0; exact absurd hp0 (by simp)
      | file c =>
        rw [hf] at hp0
        have hps : (_parse_message_file (dirName p) c).isSome = true := hp0
        obtain ⟨⟨hdr, text, atts0⟩, hpar⟩ := Option.isSome_iff_exists.mp hps
        have hatts0 : attsOf s p = atts0 := by
          unfold attsOf
          rw [hf]
          show (match _parse_message_file (dirName p) c with
            | some (_, _, atts) => atts
            | none => []) = atts0
          rw [hpar]
        have hzpp : zipPathOf p ≠ p := hzq p hpself p hpself
        have hzpa : zipPathOf p ∉ atts0 := by
          intro hmem
          exact (hatt p hpself (zipPathOf p) (hatts0 ▸ hmem) p hpself).2 rfl
        -- the state after archiving the head
        have hlook : ∀ q ∈ rest, FS.lookup (_archive_processed_message s p atts0) q
            = FS.lookup s q := by
          intro q hq
          rw [archive_lookup]
          have hq1 : q ∉ atts0 := fun hqa =>
            (hatt p hpself q (hatts0 ▸ hqa) q (List.mem_cons_of_mem p hq)).1 rfl
          have hq2 : q ≠ p := fun hc => hpnr (hc ▸ hq)
          have hq3 : q ≠ zipPathOf p := Ne.symm (hzq p hpself q (List.mem_cons_of_mem p hq))
          rw [if_neg hq1, if_neg hq2, if_neg hq3]
        have hAtts : ∀ q ∈ rest, attsOf (_archive_processed_message s p atts0) q
            = attsOf s q := fun q hq => attsOf_congr s _ q (hlook q hq)
        obtain ⟨msgs, s2, hrun, hper, hnonepres, hframe⟩ :=
          ih (_archive_processed_message s p atts0) hcons.2
            (fun q hq => by
              rw [parsesFile_congr s _ q (hlook q hq)]
              exact hparse q (List.mem_cons_of_mem p hq))
            (fun q hq r hr => hzq q (List.mem_cons_of_mem p hq) r (List.mem_cons_of_mem p hr))
            (fun q hq r hr hne => hzz q (List.mem_cons_of_mem p hq) r
              (List.mem_cons_of_mem p hr) hne)
            (fun q hq a ha r hr => hatt q (List.mem_cons_of_mem p hq) a
              (hAtts q hq ▸ ha) r (List.mem_cons_of_mem p hr))
        have hloop : fetchLoop mapped (p :: rest) s =
            (Except.ok (({ fromAgent := (dictGet hdr "from").getD ""
                           toAgent := (dictGet hdr "to").getD mapped
                           sent_at := (dictGet hdr "sent_at").getD ""
                           message := text
                           attachments := msgAttachments s atts0 } : Message) :: msgs), s2) := by
          simp only [fetchLoop, hf, hpar, hrun]
        refine ⟨_, s2, hloop, ?_, ?_, ?_⟩
        · -- per-envelope conclusions
          intro q hq
          rcases List.mem_cons.mp hq with rfl | hqr
          · -- the head envelope itself
            have hrestz : ∀ r ∈ rest, q ≠ zipPathOf r :=
              fun r hr => Ne.symm (hzq r (List.mem_cons_of_mem q hr) q hpself)
            have hzframe := hframe (zipPathOf q) (fun r hr =>
              ⟨hzq q hpself r (List.mem_cons_of_mem q hr),
               hzz q hpself r (List.mem_cons_of_mem q hr) (fun hc => hpnr (hc ▸ hr)),
               fun hmem => (hatt r (List.mem_cons_of_mem q hr) (zipPathOf q)
                 (hAtts r hr ▸ hmem) q hpself).2 rfl⟩)
            refine ⟨?_, ?_, ?_, ?_⟩
            · exact hnonepres q (archive_lookup_env s q atts0) hrestz
            · intro a ha
              have ha0 : a ∈ atts0 := hatts0 ▸ ha
              have hanone : FS.lookup (_archive_processed_message s q atts0) a = none := by
                rw [archive_lookup, if_pos ha0]
              exact hnonepres a hanone (fun r hr =>
                (hatt q hpself a ha r (List.mem_cons_of_mem q hr)).2)
            · rw [hzframe.2]
              exact archive_keyCount_zip s q atts0 hzpp hzpa
            · refine ⟨archiveMembers s q atts0, ?_, ?_⟩
              · rw [hzframe.1, archive_lookup, if_neg hzpa, if_neg hzpp, if_pos rfl]
              · intro c0 hc0
                rw [hf] at hc0
                injection hc0 with hc0
                injection hc0 with hc0
                rw [← hc0]
                unfold archiveMembers
                rw [hf]
                exact List.mem_append_left _ (List.mem_singleton_self _)
          · -- an envelope further down
            obtain ⟨h1, h2, h3, h4⟩ := hper q hqr
            rw [hAtts q hqr] at h2
            rw [hlook q hqr] at h4
            exact ⟨h1, h2, h3, h4⟩
        · -- paths missing before stay missing
          intro x hx hz
          have hs1 : FS.lookup (_archive_processed_message s p atts0) x = none := by
            rw [archive_lookup]
            by_cases h1 : x ∈ atts0
            · rw [if_pos h1]
            · rw [if_neg h1]
              by_cases h2 : x = p
              · rw [if_pos h2]
              · rw [if_neg h2, if_neg (hz p hpself), hx]
          exact hnonepres x hs1 (fun r hr => hz r (List.mem_cons_of_mem p hr))
        · -- unrelated paths are untouched
          intro x hx
          obtain ⟨hx1, hx2, hx3⟩ := hx p hpself
          have hx3' : x ∉ atts0 := hatts0 ▸ hx3
          have hstep1 : FS.lookup (_archive_processed_message s p atts0) x = FS.lookup s x := by
            rw [archive_lookup, if_neg hx3', if_neg hx1, if_neg hx2]
          have hstep2 : keyCount (_archive_processed_message s p atts0) x = keyCount s x :=
            archive_keyCount_other s p atts0 x hx2 hx1 hx3'
          have hrest := hframe x (fun r hr =>
            ⟨(hx r (List.mem_cons_of_mem p hr)).1,
             (hx r (List.mem_cons_of_mem p hr)).2.1,
             fun hmem => (hx r (List.mem_cons_of_mem p hr)).2.2 (hAtts r hr ▸ hmem)⟩)
          exact ⟨hrest.1.trans hstep1, hrest.2.trans hstep2⟩

end Openack

namespace Openack

/-- C3: over an inbox whose envelope files all decode and whose paths,
zip targets and referenced attachments do not collide, the dequeue call
succeeds, and afterwards every envelope file and every attachment it
referenced are gone from the store (so no subsequent inbox scan lists
them), while the envelope's zip path — done/<stem>.zip — holds exactly
one entry: a zip archive containing the envelope file's bytes under its
base name. -/
theorem fetch_archives_consumed (idMap : List (String × String))
    (root agent_id mapped : String) (s : FS)
    (hres : dictGet idMap (pyStrip agent_id) = some mapped)
    (hm : mapped ≠ "")
    (hdir : s.dirExists (root ++ "/" ++ mapped ++ "/inbox") = true)
    (hnd : (s.sortedMdFiles (root ++ "/" ++ mapped ++ "/inbox")).Nodup)
    (hparse : ∀ p ∈ s.sortedMdFiles (root ++ "/" ++ mapped ++ "/inbox"),
      parsesFile s p = true)
    (hzq : ∀ p ∈ s.sortedMdFiles (root ++ "/" ++ mapped ++ "/inbox"),
      ∀ q ∈ s.sortedMdFiles (root ++ "/" ++ mapped ++ "/inbox"), zipPathOf p ≠ q)
    (hzz : ∀ p ∈ s.sortedMdFiles (root ++ "/" ++ mapped ++ "/inbox"),
      ∀ q ∈ s.sortedMdFiles (root ++ "/" ++ mapped ++ "/inbox"),
        p ≠ q → zipPathOf p ≠ zipPathOf q)
    (hatt : ∀ p ∈ s.sortedMdFiles (root ++ "/" ++ mapped ++ "/inbox"),
      ∀ a ∈ attsOf s p, ∀ q ∈ s.sortedMdFiles (root ++ "/" ++ mapped ++ "/inbox"),
        a ≠ q ∧ a ≠ zipPathOf q) :
    ∃ msgs s2, fetch_messages_by_id idMap root agent_id s = (Except.ok msgs, s2) ∧
      ∀ p ∈ s.sortedMdFiles (root ++ "/" ++ mapped ++ "/inbox"),
        FS.lookup s2 p = none ∧
        p ∉ s2.sortedMdFiles (root ++ "/" ++ mapped ++ "/inbox") ∧
        (∀ a ∈ attsOf s p, FS.lookup s2 a = none ∧
          a ∉ s2.sortedMdFiles (root ++ "/" ++ mapped ++ "/inbox")) ∧
        keyCount s2 (zipPathOf p) = 1 ∧
        ∃ members, FS.lookup s2 (zipPathOf p) = some (FsFile.zip members) ∧
          ∀ c, FS.lookup s p = some (FsFile.file c) → (baseName p, c) ∈ members := by
  obtain ⟨msgs, s2, hrun, hper, _, _⟩ :=
    fetchLoop_sep mapped (s.sortedMdFiles (root ++ "/" ++ mapped ++ "/inbox")) s
      hnd hparse hzq hzz hatt
  refine ⟨msgs, s2, ?_, ?_⟩
  · unfold fetch_messages_by_id
    rw [hres]
    simp only
    rw [if_neg hm, if_pos hdir]
    exact hrun
  · intro p hp
    obtain ⟨h1, h2, h3, h4⟩ := hper p hp
    exact ⟨h1, not_mem_sortedMd_of_lookup_none h1,
      fun a ha => ⟨h2 a ha, not_mem_sortedMd_of_lookup_none (h2 a ha)⟩, h3, h4⟩

/-- C3 witness: the archive theorem applied to the concrete two-envelope
store. -/
theorem fetch_archives_consumed_witness :
    ∃ msgs s2,
      fetch_messages_by_id [("tok", "paul")] "/messages" "tok" fsC3 = (Except.ok msgs, s2) ∧
      ∀ p ∈ fsC3.sortedMdFiles ("/messages" ++ "/" ++ "paul" ++ "/inbox"),
        FS.lookup s2 p = none ∧
        p ∉ s2.sortedMdFiles ("/messages" ++ "/" ++ "paul" ++ "/inbox") ∧
        (∀ a ∈ attsOf fsC3 p, FS.lookup s2 a = none ∧
          a ∉ s2.sortedMdFiles ("/messages" ++ "/" ++ "paul" ++ "/inbox")) ∧
        keyCount s2 (zipPathOf p) = 1 ∧
        ∃ members, FS.lookup s2 (zipPathOf p) = some (FsFile.zip members) ∧
          ∀ c, FS.lookup fsC3 p = some (FsFile.file c) → (baseName p, c) ∈ members :=
  fetch_archives_consumed [("tok", "paul")] "/messages" "tok" "paul" fsC3
    (by rfl) (by decide) (by rfl) (by decide) (by decide) (by decide) (by decide) (by decide)

end Openack

namespace Openack

/-! ## C7: lexicographic order machinery -/

theorem lexLe_refl : ∀ x : List Char, lexLe x x = true
  | [] => rfl
  | a :: as => by
    unfold lexLe
    rw [lexLe_refl as]
    simp

theorem lexLt_irrefl : ∀ x : List Char, lexLt x x = false
  | [] => rfl
  | a :: as => by
    unfold lexLt
    rw [lexLt_irrefl as]
    simp

theorem lexLe_total : ∀ as bs : List Char, lexLe as bs = true ∨ lexLe bs as = true
  | [], _ => Or.inl rfl
  | _ :: _, [] => Or.inr rfl
  | a :: as, b :: bs => by
    rcases Nat.lt_trichotomy a.toNat b.toNat with h | h | h
    · left
      unfold lexLe
      rw [decide_eq_true h]
      rfl
    · have hab : a = b := char_toNat_inj h
      rcases lexLe_total as bs with h' | h'
      · left
        unfold lexLe
        rw [hab, h']
        simp
      · right
        unfold lexLe
        rw [hab, h']
        simp
    · right
      unfold lexLe
      rw [decide_eq_true h]
      rfl

theorem bor_split {x y : Bool} (h : (x || y) = true) : x = true ∨ y = true := by
  simpa using h

theorem band_split {x y : Bool} (h : (x && y) = true) : x = true ∧ y = true := by
  simpa using h

theorem lexLe_trans : ∀ as bs cs : List Char,
    lexLe as bs = true → lexLe bs cs = true → lexLe as cs = true
  | [], _, _ => fun _ _ => rfl
  | _ :: _, [], _ => fun h _ => by exact absurd h (by simp [lexLe])
  | _ :: _, _ :: _, [] => fun _ h => by exact absurd h (by simp [lexLe])
  | a :: as, b :: bs, c :: cs => fun h1 h2 => by
    unfold lexLe at h1 h2 ⊢
    rcases bor_split h1 with h1' | h1'
    · have hab : a.toNat < b.toNat := of_decide_eq_true h1'
      rcases bor_split h2 with h2' | h2'
      · have hbc : b.toNat < c.toNat := of_decide_eq_true h2'
        rw [decide_eq_true (Nat.lt_trans hab hbc)]
        rfl
      · have hbc : b = c := of_decide_eq_true (band_split h2').1
        rw [decide_eq_true (hbc ▸ hab)]
        rfl
    · obtain ⟨hab', htail1⟩ := band_split h1'
      have hab : a = b := of_decide_eq_true hab'
      rcases bor_split h2 with h2' | h2'
      · have hbc : b.toNat < c.toNat := of_decide_eq_true h2'
        rw [decide_eq_true (hab ▸ hbc)]
        rfl
      · obtain ⟨hbc', htail2⟩ := band_split h2'
        have hbc : b = c := of_decide_eq_true hbc'
        rw [hab, hbc, decide_eq_true rfl, lexLe_trans as bs cs htail1 htail2]
        simp

theorem lexLe_iff_lt_or_eq : ∀ x y : List Char, x.length = y.length →
    (lexLe x y = true ↔ (lexLt x y = true ∨ x = y))
  | [], [], _ => by simp [lexLe, lexLt]
  | [], _ :: _, h => by simp at h
  | _ :: _, [], h => by simp at h
  | a :: as, b :: bs, h => by
    have ih := lexLe_iff_lt_or_eq as bs (by simpa using h)
    show (decide (a.toNat < b.toNat) || (decide (a = b) && lexLe as bs)) = true ↔
      ((decide (a.toNat < b.toNat) || (decide (a = b) && lexLt as bs)) = true ∨ a :: as = b :: bs)
    simp only [Bool.or_eq_true, Bool.and_eq_true, decide_eq_true_eq, List.cons.injEq]
    constructor
    · rintro (h' | ⟨hab, htail⟩)
      · exact Or.inl (Or.inl h')
      · rcases (ih.mp htail) with h'' | h''
        · exact Or.inl (Or.inr ⟨hab, h''⟩)
        · exact Or.inr ⟨hab, h''⟩
    · rintro ((h' | ⟨hab, htail⟩) | ⟨hab, htail⟩)
      · exact Or.inl h'
      · exact Or.inr ⟨hab, ih.mpr (Or.inl htail)⟩
      · exact Or.inr ⟨hab, ih.mpr (Or.inr htail)⟩

theorem lexLt_append_eqlen : ∀ a b x y : List Char, a.length = b.length →
    lexLt (a ++ x) (b ++ y) = (lexLt a b || (decide (a = b) && lexLt x y))
  | [], [], x, y, _ => by simp [lexLt]
  | [], _ :: _, _, _, h => by simp at h
  | _ :: _, [], _, _, h => by simp at h
  | a :: as, b :: bs, x, y, h => by
    have ih := lexLt_append_eqlen as bs x y (by simpa using h)
    show (decide (a.toNat < b.toNat) || (decide (a = b) && lexLt (as ++ x) (bs ++ y))) = _
    rw [ih]
    by_cases hab : a = b
    · subst hab
      by_cases hasbs : as = bs
      · subst hasbs
        simp [lexLt, Nat.lt_irrefl]
      · simp [lexLt, Nat.lt_irrefl, hasbs]
    · have h1 : decide ((a :: as) = (b :: bs)) = false := by simp [hab]
      simp [lexLt, hab, h1]

theorem lexLe_append_eqlen : ∀ a b x y : List Char, a.length = b.length →
    lexLe (a ++ x) (b ++ y) = (lexLt a b || (decide (a = b) && lexLe x y))
  | [], [], x, y, _ => by simp [lexLe, lexLt]
  | [], _ :: _, _, _, h => by simp at h
  | _ :: _, [], _, _, h => by simp at h
  | a :: as, b :: bs, x, y, h => by
    have ih := lexLe_append_eqlen as bs x y (by simpa using h)
    show (decide (a.toNat < b.toNat) || (decide (a = b) && lexLe (as ++ x) (bs ++ y))) = _
    rw [ih]
    by_cases hab : a = b
    · subst hab
      by_cases hasbs : as = bs
      · subst hasbs
        simp [lexLt, Nat.lt_irrefl]
      · simp [lexLt, Nat.lt_irrefl, hasbs]
    · have h1 : decide ((a :: as) = (b :: bs)) = false := by simp [hab]
      simp [lexLt, hab, h1]

theorem append_eqlen_inj {a b x y : List Char} (h : a.length = b.length) :
    a ++ x = b ++ y ↔ a = b ∧ x = y :=
  ⟨fun he => List.append_inj he h, fun ⟨h1, h2⟩ => by rw [h1, h2]⟩

end Openack

namespace Openack

/-! ## C7: decimal rendering preserves numeric order -/

theorem pad2_length (n : Nat) : (pad2 n).length = 2 := rfl

theorem pad4_length (n : Nat) : (pad4 n).length = 4 := rfl

theorem digitChar_facts : ∀ d, d < 10 → ∀ e, e < 10 →
    ((digitChar d = digitChar e ↔ d = e) ∧
      ((digitChar d).toNat < (digitChar e).toNat ↔ d < e)) := by decide

theorem pad2_lt (m n : Nat) (hm : m < 100) (hn : n < 100) :
    lexLt (pad2 m) (pad2 n) = true ↔ m < n := by
  have h1 := digitChar_facts (m / 10) (by omega) (n / 10) (by omega)
  have h2 := digitChar_facts (m % 10) (by omega) (n % 10) (by omega)
  simp only [pad2, lexLt, Bool.and_false, Bool.or_false, Bool.or_eq_true, Bool.and_eq_true,
    decide_eq_true_eq]
  rw [h1.1, h1.2, h2.2]
  omega

theorem pad2_inj (m n : Nat) (hm : m < 100) (hn : n < 100) :
    pad2 m = pad2 n ↔ m = n := by
  constructor
  · intro h
    simp only [pad2, List.cons.injEq, and_true] at h
    have e1 : m / 10 = n / 10 :=
      (digitChar_facts (m / 10) (by omega) (n / 10) (by omega)).1.mp h.1
    have e2 : m % 10 = n % 10 :=
      (digitChar_facts (m % 10) (by omega) (n % 10) (by omega)).1.mp h.2
    omega
  · intro h
    rw [h]

theorem pad4_lt (m n : Nat) (hm : m < 10000) (hn : n < 10000) :
    lexLt (pad4 m) (pad4 n) = true ↔ m < n := by
  unfold pad4
  rw [lexLt_append_eqlen _ _ _ _ ((pad2_length _).trans (pad2_length _).symm)]
  simp only [Bool.or_eq_true, Bool.and_eq_true, decide_eq_true_eq]
  rw [pad2_lt _ _ (by omega) (by omega), pad2_inj _ _ (by omega) (by omega),
    pad2_lt _ _ (by omega) (by omega)]
  omega

theorem pad4_inj (m n : Nat) (hm : m < 10000) (hn : n < 10000) :
    pad4 m = pad4 n ↔ m = n := by
  unfold pad4
  rw [append_eqlen_inj ((pad2_length _).trans (pad2_length _).symm)]
  rw [pad2_inj _ _ (by omega) (by omega), pad2_inj _ _ (by omega) (by omega)]
  omega

theorem lexLt_cons_same (c : Char) (x y : List Char) :
    lexLt (c :: x) (c :: y) = lexLt x y := by
  simp [lexLt, Nat.lt_irrefl]

theorem isoBase_lt (t1 t2 : Timestamp) (h1 : t1.Bounded) (h2 : t2.Bounded) :
    (lexLt (isoBaseData t1) (isoBaseData t2) = true) ↔ Timestamp.Earlier t1 t2 := by
  obtain ⟨hy1, hmo1, hd1, hho1, hmi1, hs1⟩ := h1
  obtain ⟨hy2, hmo2, hd2, hho2, hmi2, hs2⟩ := h2
  unfold isoBaseData Timestamp.Earlier
  rw [lexLt_append_eqlen _ _ _ _ ((pad4_length _).trans (pad4_length _).symm),
    lexLt_cons_same,
    lexLt_append_eqlen _ _ _ _ ((pad2_length _).trans (pad2_length _).symm),
    lexLt_cons_same,
    lexLt_append_eqlen _ _ _ _ ((pad2_length _).trans (pad2_length _).symm),
    lexLt_cons_same,
    lexLt_append_eqlen _ _ _ _ ((pad2_length _).trans (pad2_length _).symm),
    lexLt_cons_same,
    lexLt_append_eqlen _ _ _ _ ((pad2_length _).trans (pad2_length _).symm),
    lexLt_cons_same]
  simp only [Bool.or_eq_true, Bool.and_eq_true, decide_eq_true_eq, List.cons.injEq, true_and]
  rw [pad4_lt _ _ hy1 hy2, pad4_inj _ _ hy1 hy2,
    pad2_lt _ _ hmo1 hmo2, pad2_inj _ _ hmo1 hmo2,
    pad2_lt _ _ hd1 hd2, pad2_inj _ _ hd1 hd2,
    pad2_lt _ _ hho1 hho2, pad2_inj _ _ hho1 hho2,
    pad2_lt _ _ hmi1 hmi2, pad2_inj _ _ hmi1 hmi2,
    pad2_lt _ _ hs1 hs2]

theorem isoBase_inj (t1 t2 : Timestamp) (h1 : t1.Bounded) (h2 : t2.Bounded) :
    isoBaseData t1 = isoBaseData t2 ↔ t1 = t2 := by
  obtain ⟨y1, mo1, d1, ho1, mi1, s1⟩ := t1
  obtain ⟨y2, mo2, d2, ho2, mi2, s2⟩ := t2
  obtain ⟨hy1, hmo1, hd1, hho1, hmi1, hs1⟩ := h1
  obtain ⟨hy2, hmo2, hd2, hho2, hmi2, hs2⟩ := h2
  unfold isoBaseData
  simp only [Timestamp.mk.injEq]
  rw [append_eqlen_inj ((pad4_length _).trans (pad4_length _).symm)]
  simp only [List.cons.injEq, true_and]
  rw [append_eqlen_inj ((pad2_length _).trans (pad2_length _).symm)]
  simp only [List.cons.injEq, true_and]
  rw [append_eqlen_inj ((pad2_length _).trans (pad2_length _).symm)]
  simp only [List.cons.injEq, true_and]
  rw [append_eqlen_inj ((pad2_length _).trans (pad2_length _).symm)]
  simp only [List.cons.injEq, true_and]
  rw [append_eqlen_inj ((pad2_length _).trans (pad2_length _).symm)]
  simp only [List.cons.injEq, true_and]
  rw [pad4_inj _ _ hy1 hy2, pad2_inj _ _ hmo1 hmo2, pad2_inj _ _ hd1 hd2,
    pad2_inj _ _ hho1 hho2, pad2_inj _ _ hmi1 hmi2, pad2_inj _ _ hs1 hs2]

end Openack

namespace Openack

/-! ## C7: filename rendering and its order -/

theorem digitChar_ne_plus (n : Nat) : digitChar n ≠ '+' := by
  unfold digitChar
  split <;> decide

theorem plus_not_mem_pad2 (n : Nat) : '+' ∉ pad2 n := by
  intro hmem
  simp only [pad2, List.mem_cons, List.not_mem_nil, or_false] at hmem
  rcases hmem with h | h <;> exact digitChar_ne_plus _ h.symm

theorem plus_not_mem_isoBase (t : Timestamp) : '+' ∉ isoBaseData t := by
  intro hmem
  unfold isoBaseData pad4 at hmem
  rcases List.mem_append.mp hmem with h | h
  · rcases List.mem_append.mp h with h' | h'
    · exact plus_not_mem_pad2 _ h'
    · exact plus_not_mem_pad2 _ h'
  · rcases List.mem_cons.mp h with h1 | h1
    · exact absurd h1 (by decide)
    rcases List.mem_append.mp h1 with h2 | h2
    · exact plus_not_mem_pad2 _ h2
    rcases List.mem_cons.mp h2 with h3 | h3
    · exact absurd h3 (by decide)
    rcases List.mem_append.mp h3 with h4 | h4
    · exact plus_not_mem_pad2 _ h4
    rcases List.mem_cons.mp h4 with h5 | h5
    · exact absurd h5 (by decide)
    rcases List.mem_append.mp h5 with h6 | h6
    · exact plus_not_mem_pad2 _ h6
    rcases List.mem_cons.mp h6 with h7 | h7
    · exact absurd h7 (by decide)
    rcases List.mem_append.mp h7 with h8 | h8
    · exact plus_not_mem_pad2 _ h8
    rcases List.mem_cons.mp h8 with h9 | h9
    · exact absurd h9 (by decide)
    exact plus_not_mem_pad2 _ h9

/-- str.replace when the pattern occurs exactly once, at the very end:
the single occurrence is substituted. -/
theorem pyReplaceData_boundary (p : Char) (ps rep : List Char) :
    ∀ a : List Char, p ∉ a → pyReplaceData (p :: ps) rep (a ++ p :: ps) = a ++ rep
  | [], _ => by
    show pyReplaceData (p :: ps) rep (p :: ps) = [] ++ rep
    unfold pyReplaceData
    rw [if_pos (by rw [List.isPrefixOf_iff_prefix])]
    rw [List.drop_length]
    show rep ++ pyReplaceData (p :: ps) rep [] = [] ++ rep
    unfold pyReplaceData
    simp
  | c :: a', hp => by
    have hpc : p ≠ c := fun hc => hp (hc ▸ List.mem_cons_self c a')
    have hpa : p ∉ a' := fun hc => hp (List.mem_cons_of_mem c hc)
    show pyReplaceData (p :: ps) rep (c :: (a' ++ p :: ps)) = c :: (a' ++ rep)
    unfold pyReplaceData
    rw [if_neg (by
      intro hpre
      rw [List.isPrefixOf_iff_prefix] at hpre
      exact hpc (List.cons_prefix_cons.mp hpre).1)]
    rw [pyReplaceData_boundary p ps rep a' hpa]

theorem isoformatUTC_data (t : Timestamp) :
    (isoformatUTC t).data = isoBaseData t ++ ['+', '0', '0', ':', '0', '0'] := by
  unfold isoformatUTC
  rw [String.data_append]

/-- The characters of a generated envelope filename: the date-time part
with the Z suffix, a dash, the unique id, and the md extension. -/
theorem make_filename_data (u : String) (t : Timestamp) :
    (make_message_filename u (isoformatUTC t)).data
      = (isoBaseData t ++ ['Z', '-']) ++ (u.data ++ ['.', 'm', 'd']) := by
  unfold make_message_filename pyReplace
  rw [String.data_append, String.data_append, String.data_append]
  have harg : (isoformatUTC t).data = isoBaseData t ++ '+' :: ['0', '0', ':', '0', '0'] :=
    isoformatUTC_data t
  rw [show ("+00:00" : String).data = '+' :: ['0', '0', ':', '0', '0'] from rfl, harg,
    pyReplaceData_boundary '+' ['0', '0', ':', '0', '0'] ("Z" : String).data
      (isoBaseData t) (plus_not_mem_isoBase t)]
  show ((isoBaseData t ++ ['Z']) ++ ['-'] ++ u.data) ++ ['.', 'm', 'd'] = _
  simp [List.append_assoc]

theorem isoBase_length (t : Timestamp) : (isoBaseData t).length = 19 := by
  unfold isoBaseData
  simp [pad4_length, pad2_length]

/-- Generated filenames compare exactly as (timestamp, unique id) pairs:
earlier sent_at sorts first, and for equal timestamps the unique id
decides, provided the ids have equal length (uuid4 hex ids always do). -/
theorem filename_order (t1 t2 : Timestamp) (u1 u2 : String)
    (h1 : t1.Bounded) (h2 : t2.Bounded) (hu : u1.length = u2.length) :
    strLe (make_message_filename u1 (isoformatUTC t1))
        (make_message_filename u2 (isoformatUTC t2)) = true
      ↔ (Timestamp.Earlier t1 t2 ∨ (t1 = t2 ∧ lexLe u1.data u2.data = true)) := by
  unfold strLe
  rw [make_filename_data, make_filename_data]
  have hu' : u1.data.length = u2.data.length := hu
  rw [lexLe_append_eqlen _ _ _ _ (by
    rw [List.length_append, List.length_append, isoBase_length, isoBase_length])]
  simp only [Bool.or_eq_true, Bool.and_eq_true, decide_eq_true_eq]
  have hA_lt : lexLt (isoBaseData t1 ++ ['Z', '-']) (isoBaseData t2 ++ ['Z', '-']) = true
      ↔ Timestamp.Earlier t1 t2 := by
    rw [lexLt_append_eqlen _ _ _ _ ((isoBase_length _).trans (isoBase_length _).symm)]
    simp only [lexLt_cons_same, Bool.or_eq_true, Bool.and_eq_true, decide_eq_true_eq]
    rw [show lexLt ([] : List Char) [] = false from rfl]
    simp only [Bool.false_eq_true, and_false, or_false]
    exact isoBase_lt t1 t2 h1 h2
  have hA_eq : isoBaseData t1 ++ ['Z', '-'] = isoBaseData t2 ++ ['Z', '-'] ↔ t1 = t2 := by
    rw [append_eqlen_inj ((isoBase_length _).trans (isoBase_length _).symm)]
    simp only [and_true]
    exact isoBase_inj t1 t2 h1 h2
  have hB : lexLe (u1.data ++ ['.', 'm', 'd']) (u2.data ++ ['.', 'm', 'd']) = true
      ↔ lexLe u1.data u2.data = true := by
    rw [lexLe_append_eqlen _ _ _ _ hu']
    simp only [Bool.or_eq_true, Bool.and_eq_true, decide_eq_true_eq]
    rw [show lexLe ['.', 'm', 'd'] ['.', 'm', 'd'] = true from rfl]
    simp only [and_true]
    rw [← lexLe_iff_lt_or_eq u1.data u2.data hu']
  exact or_congr hA_lt (and_congr hA_eq hB)

/-- Paths sharing a directory prefix compare exactly as their file
names. -/
theorem strLe_shared_dir (d f1 f2 : String) :
    strLe (d ++ f1) (d ++ f2) = lexLe f1.data f2.data := by
  unfold strLe
  rw [String.data_append, String.data_append,
    lexLe_append_eqlen d.data d.data f1.data f2.data rfl, lexLt_irrefl]
  simp

end Openack

namespace Openack

/-! ## C7: the returned sequence follows the scan order -/

theorem messageOf_core_congr (s s' : FS) (mapped p : String)
    (h : FS.lookup s' p = FS.lookup s p) :
    (messageOf s' mapped p).map coreOf = (messageOf s mapped p).map coreOf := by
  unfold messageOf
  rw [h]
  cases hv : FS.lookup s p with
  | none => rfl
  | some f =>
    cases f with
    | zip z => rfl
    | file c =>
      show ((match _parse_message_file (dirName p) c with
        | some (header, message_text, attachment_paths) =>
          some { fromAgent := (dictGet header "from").getD ""
                 toAgent := (dictGet header "to").getD mapped
                 sent_at := (dictGet header "sent_at").getD ""
                 message := message_text
                 attachments := msgAttachments s' attachment_paths }
        | none => none : Option Message)).map coreOf
        = ((match _parse_message_file (dirName p) c with
        | some (header, message_text, attachment_paths) =>
          some { fromAgent := (dictGet header "from").getD ""
                 toAgent := (dictGet header "to").getD mapped
                 sent_at := (dictGet header "sent_at").getD ""
                 message := message_text
                 attachments := msgAttachments s attachment_paths }
        | none => none : Option Message)).map coreOf
      cases hp : _parse_message_file (dirName p) c with
      | none => rfl
      | some trip =>
        obtain ⟨hdr, txt, atts⟩ := trip
        rfl

/-- Over a separated inbox the loop returns one message per envelope, in
scan order, each decoding its envelope. -/
theorem fetchLoop_order (mapped : String) (ps : List String) (s : FS)
    (hnd : ps.Nodup)
    (hparse : ∀ p ∈ ps, parsesFile s p = true)
    (hzq : ∀ p ∈ ps, ∀ q ∈ ps, zipPathOf p ≠ q)
    (hatt : ∀ p ∈ ps, ∀ a ∈ attsOf s p, ∀ q ∈ ps, a ≠ q ∧ a ≠ zipPathOf q) :
    ∃ msgs s2, fetchLoop mapped ps s = (Except.ok msgs, s2) ∧
      List.Forall₂ (coreMatches s mapped) ps msgs := by
  induction ps generalizing s with
  | nil => exact ⟨[], s, rfl, List.Forall₂.nil⟩
  | cons p rest ih =>
    have hpself : p ∈ p :: rest := List.mem_cons_self p rest
    have hcons := List.nodup_cons.mp hnd
    have hpnr : p ∉ rest := hcons.1
    have hp0 := hparse p hpself
    unfold parsesFile at hp0
    cases hf : FS.lookup s p with
    | none => rw [hf] at hp0; exact absurd hp0 (by simp)
    | some file =>
      cases file with
      | zip z => rw [hf] at hp0; exact absurd hp0 (by simp)
      | file c =>
        rw [hf] at hp0
        have hps : (_parse_message_file (dirName p) c).isSome = true := hp0
        obtain ⟨⟨hdr, text, atts0⟩, hpar⟩ := Option.isSome_iff_exists.mp hps
        have hatts0 : attsOf s p = atts0 := by
          unfold attsOf
          rw [hf]
          show (match _parse_message_file (dirName p) c with
            | some (_, _, atts) => atts
            | none => []) = atts0
          rw [hpar]
        have hlook : ∀ q ∈ rest, FS.lookup (_archive_processed_message s p atts0) q
            = FS.lookup s q := by
          intro q hq
          rw [archive_lookup]
          have hq1 : q ∉ atts0 := fun hqa =>
            (hatt p hpself q (hatts0 ▸ hqa) q (List.mem_cons_of_mem p hq)).1 rfl
          have hq2 : q ≠ p := fun hc => hpnr (hc ▸ hq)
          have hq3 : q ≠ zipPathOf p := Ne.symm (hzq p hpself q (List.mem_cons_of_mem p hq))
          rw [if_neg hq1, if_neg hq2, if_neg hq3]
        have hAtts : ∀ q ∈ rest, attsOf (_archive_processed_message s p atts0) q
            = attsOf s q := fun q hq => attsOf_congr s _ q (hlook q hq)
        obtain ⟨msgs, s2, hrun, hfor⟩ :=
          ih (_archive_processed_message s p atts0) hcons.2
            (fun q hq => by
              rw [parsesFile_congr s _ q (hlook q hq)]
              exact hparse q (List.mem_cons_of_mem p hq))
            (fun q hq r hr => hzq q (List.mem_cons_of_mem p hq) r (List.mem_cons_of_mem p hr))
            (fun q hq a ha r hr => hatt q (List.mem_cons_of_mem p hq) a
              (hAtts q hq ▸ ha) r (List.mem_cons_of_mem p hr))
        have htransfer : ∀ (l : List String) (ms : List Message),
            (∀ q ∈ l, FS.lookup (_archive_processed_message s p atts0) q = FS.lookup s q) →
            List.Forall₂ (coreMatches (_archive_processed_message s p atts0) mapped) l ms →
            List.Forall₂ (coreMatches s mapped) l ms := by
          intro l ms hl hf2
          induction hf2 with
          | nil => exact List.Forall₂.nil
          | cons hab htail ihh =>
            refine List.Forall₂.cons ?_ (ihh (fun q hq => hl q (List.mem_cons_of_mem _ hq)))
            unfold coreMatches at hab ⊢
            rw [← messageOf_core_congr s _ mapped _ (hl _ (List.mem_cons_self _ _))]
            exact hab
        refine ⟨({ fromAgent := (dictGet hdr "from").getD ""
                   toAgent := (dictGet hdr "to").getD mapped
                   sent_at := (dictGet hdr "sent_at").getD ""
                   message := text
                   attachments := msgAttachments s atts0 } : Message) :: msgs, s2,
          by simp only [fetchLoop, hf, hpar, hrun], ?_⟩
        refine List.Forall₂.cons ?_ (htransfer rest msgs hlook hfor)
        unfold coreMatches messageOf
        rw [hf]
        show ((match _parse_message_file (dirName p) c with
          | some (header, message_text, attachment_paths) =>
            some { fromAgent := (dictGet header "from").getD ""
                   toAgent := (dictGet header "to").getD mapped
                   sent_at := (dictGet header "sent_at").getD ""
                   message := message_text
                   attachments := msgAttachments s attachment_paths }
          | none => none : Option Message)).map coreOf = _
        rw [hpar]
        rfl

end Openack

namespace Openack

/-- C7: the inbox scan is sorted in Python string order; the dequeue
call returns exactly one message per scanned envelope file, in scan
order, each decoding its envelope; and on generated envelope filenames
(`<sent_at-with-Z>-<uuid>.md` under a common directory) that string
order coincides with non-decreasing sent_at, unique id deciding ties
(ids of equal length, as uuid4 hex ids are). -/
theorem fetch_ordered (idMap : List (String × String))
    (root agent_id mapped : String) (s : FS)
    (hres : dictGet idMap (pyStrip agent_id) = some mapped)
    (hm : mapped ≠ "")
    (hdir : s.dirExists (root ++ "/" ++ mapped ++ "/inbox") = true)
    (hnd : (s.sortedMdFiles (root ++ "/" ++ mapped ++ "/inbox")).Nodup)
    (hparse : ∀ p ∈ s.sortedMdFiles (root ++ "/" ++ mapped ++ "/inbox"),
      parsesFile s p = true)
    (hzq : ∀ p ∈ s.sortedMdFiles (root ++ "/" ++ mapped ++ "/inbox"),
      ∀ q ∈ s.sortedMdFiles (root ++ "/" ++ mapped ++ "/inbox"), zipPathOf p ≠ q)
    (hatt : ∀ p ∈ s.sortedMdFiles (root ++ "/" ++ mapped ++ "/inbox"),
      ∀ a ∈ attsOf s p, ∀ q ∈ s.sortedMdFiles (root ++ "/" ++ mapped ++ "/inbox"),
        a ≠ q ∧ a ≠ zipPathOf q) :
    List.Sorted pathOrder (s.sortedMdFiles (root ++ "/" ++ mapped ++ "/inbox")) ∧
    (∃ msgs s2, fetch_messages_by_id idMap root agent_id s = (Except.ok msgs, s2) ∧
      List.Forall₂ (coreMatches s mapped)
        (s.sortedMdFiles (root ++ "/" ++ mapped ++ "/inbox")) msgs) ∧
    (∀ d : String, ∀ t1 t2 : Timestamp, ∀ u1 u2 : String,
      t1.Bounded → t2.Bounded → u1.length = u2.length →
      (pathOrder (d ++ make_message_filename u1 (isoformatUTC t1))
          (d ++ make_message_filename u2 (isoformatUTC t2))
        ↔ (Timestamp.Earlier t1 t2 ∨ (t1 = t2 ∧ lexLe u1.data u2.data = true)))) := by
  refine ⟨?_, ?_, ?_⟩
  · show List.Sorted pathOrder
      (List.insertionSort pathOrder (s.mdFiles (root ++ "/" ++ mapped ++ "/inbox")))
    exact @List.sorted_insertionSort String pathOrder _
      ⟨fun a b => lexLe_total a.data b.data⟩
      ⟨fun a b c h1 h2 => lexLe_trans a.data b.data c.data h1 h2⟩ _
  · obtain ⟨msgs, s2, hrun, hfor⟩ :=
      fetchLoop_order mapped (s.sortedMdFiles (root ++ "/" ++ mapped ++ "/inbox")) s
        hnd hparse hzq hatt
    refine ⟨msgs, s2, ?_, hfor⟩
    unfold fetch_messages_by_id
    rw [hres]
    simp only
    rw [if_neg hm, if_pos hdir]
    exact hrun
  · intro d t1 t2 u1 u2 hb1 hb2 hu
    show strLe (d ++ make_message_filename u1 (isoformatUTC t1))
      (d ++ make_message_filename u2 (isoformatUTC t2)) = true ↔ _
    rw [strLe_shared_dir]
    exact filename_order t1 t2 u1 u2 hb1 hb2 hu

/-- C7 witness: the ordering theorem applied to the concrete
two-envelope store. -/
theorem fetch_ordered_witness :
    List.Sorted pathOrder (fsC7.sortedMdFiles ("/messages" ++ "/" ++ "paul" ++ "/inbox")) ∧
    (∃ msgs s2, fetch_messages_by_id [("tok", "paul")] "/messages" "tok" fsC7
        = (Except.ok msgs, s2) ∧
      List.Forall₂ (coreMatches fsC7 "paul")
        (fsC7.sortedMdFiles ("/messages" ++ "/" ++ "paul" ++ "/inbox")) msgs) ∧
    (∀ d : String, ∀ t1 t2 : Timestamp, ∀ u1 u2 : String,
      t1.Bounded → t2.Bounded → u1.length = u2.length →
      (pathOrder (d ++ make_message_filename u1 (isoformatUTC t1))
          (d ++ make_message_filename u2 (isoformatUTC t2))
        ↔ (Timestamp.Earlier t1 t2 ∨ (t1 = t2 ∧ lexLe u1.data u2.data = true)))) :=
  fetch_ordered [("tok", "paul")] "/messages" "tok" "paul" fsC7
    (by rfl) (by decide) (by rfl) (by decide) (by decide) (by decide) (by decide)

end Openack
